import Mathlib

/-!
Verification of the protorpc JSON codec (`protorpc/protojson.py`) and the
protorpc WSGI RPC dispatcher (`protorpc/wsgi/service.py`).

The embedding works at the JSON-value level: the text layer (`simplejson.dumps`
/ `simplejson.loads`) is an external library and is modelled as the identity
between JSON values and well-formed JSON text, so an encoded payload is either
empty/whitespace text, text that parses to a JSON value, or malformed text.

The message/field schema system (`protorpc/messages.py`) and the helpers
`protorpc/remote.py` and `protorpc/wsgi/util.py` are code of this repository
that is not under `src/`; the definitions that depend on them are modelled
from the spec and say so in their doc comments.
-/

namespace ProtoRPC

/-- JSON values, as parsed from JSON text by the (external) `simplejson`
library.  Python distinguishes integral JSON numbers (`int`) from
floating-point ones (`float`); floats are modelled as rationals since the
codec only passes them through. -/
inductive JValue where
  | jnull : JValue
  | jbool (b : Bool) : JValue
  | jint (n : Int) : JValue
  | jfloat (q : Rat) : JValue
  | jstr (s : String) : JValue
  | jarr (items : List JValue) : JValue
  | jobj (members : List (String × JValue)) : JValue

/-- An encoded payload (the wire string), abstracted over the text layer:
empty or all-whitespace text, text parsing to one JSON value, or text that is
not valid JSON. -/
inductive Wire where
  | empty : Wire
  | json (v : JValue) : Wire
  | malformed : Wire

mutual
/-- The value kind of a field descriptor: Integer, Float, String, Boolean,
Bytes, Enum (carrying its variants as name/number pairs) or Message (carrying
the nested message schema).  This is the static schema capability the spec
assumes (`messages.IntegerField`, `messages.BytesField`, ...). -/
inductive FieldKind where
  | kint : FieldKind
  | kfloat : FieldKind
  | kstr : FieldKind
  | kbool : FieldKind
  | kbytes : FieldKind
  | kenum (variants : List (String × Int)) : FieldKind
  | kmsg (d : MsgDescr) : FieldKind

/-- A field descriptor: name, value kind, repeated flag, required flag. -/
inductive FieldDescr where
  | mk (name : String) (kind : FieldKind) (repeated : Bool) (required : Bool) :
      FieldDescr

/-- A message schema: an ordered sequence of field descriptors. -/
inductive MsgDescr where
  | dnil : MsgDescr
  | dcons (f : FieldDescr) (rest : MsgDescr) : MsgDescr
end

def FieldDescr.name : FieldDescr → String
  | .mk n _ _ _ => n

def FieldDescr.kind : FieldDescr → FieldKind
  | .mk _ k _ _ => k

def FieldDescr.repeated : FieldDescr → Bool
  | .mk _ _ r _ => r

def FieldDescr.required : FieldDescr → Bool
  | .mk _ _ _ r => r

mutual
/-- A runtime field value.  Like Python message objects, enum values carry
their enum type (so `str(value)` can render the symbolic name) and message
values carry their own schema (`type(value)`).  Bytes are byte lists. -/
inductive Value where
  | vint (n : Int) : Value
  | vfloat (q : Rat) : Value
  | vstr (s : String) : Value
  | vbool (b : Bool) : Value
  | vbytes (bs : List Nat) : Value
  | venum (variants : List (String × Int)) (n : Int) : Value
  | vmsg (m : Msg) : Value

/-- The state of one field slot of a message instance: unassigned
(`get_assigned_value` returns `None`), a scalar value, or a list of values
for a repeated field. -/
inductive FieldVal where
  | unset : FieldVal
  | one (v : Value) : FieldVal
  | many (vs : VList) : FieldVal

/-- A list of values (the payload of a repeated field). -/
inductive VList where
  | vnil : VList
  | vcons (v : Value) (rest : VList) : VList

/-- A message instance: each slot pairs a field descriptor with its current
value, in schema order.  The instance carries its own schema, like a Python
object carries its class. -/
inductive Msg where
  | mnil : Msg
  | mcons (f : FieldDescr) (fv : FieldVal) (rest : Msg) : Msg
end

def VList.toList : VList → List Value
  | .vnil => []
  | .vcons v rest => v :: rest.toList

def VList.ofList : List Value → VList
  | [] => .vnil
  | v :: rest => .vcons v (VList.ofList rest)

@[simp] theorem VList.toList_ofList (l : List Value) :
    (VList.ofList l).toList = l := by
  induction l with
  | nil => rfl
  | cons v rest ih => simp [VList.ofList, VList.toList, ih]

@[simp] theorem VList.ofList_toList : (vs : VList) →
    VList.ofList vs.toList = vs
  | .vnil => rfl
  | .vcons v rest => by simp [VList.ofList, VList.toList, ofList_toList rest]

/-- The schema (`type(m)`) of a message instance. -/
def descrOf : Msg → MsgDescr
  | .mnil => .dnil
  | .mcons f _ rest => .dcons f (descrOf rest)

/-- A freshly constructed, empty instance of a message type
(`message_type()`): every slot unassigned. -/
def fresh : MsgDescr → Msg
  | .dnil => .mnil
  | .dcons f rest => .mcons f .unset (fresh rest)

@[simp] theorem descrOf_fresh : (d : MsgDescr) → descrOf (fresh d) = d
  | .dnil => rfl
  | .dcons f rest => by simp [fresh, descrOf, descrOf_fresh rest]

/-- The field names of a message schema, in order. -/
def descrNames : MsgDescr → List String
  | .dnil => []
  | .dcons f rest => f.name :: descrNames rest

/-- `Message.field_by_name` / `message.field_by_name(key)`: the first field
descriptor with the given name, if any. -/
def field_by_name : MsgDescr → String → Option FieldDescr
  | .dnil, _ => none
  | .dcons f rest, k => if f.name = k then some f else field_by_name rest k

/-- `setattr(message, name, value)` after successful validation: replace the
value of the first slot with the given name. -/
def setFirst : Msg → String → FieldVal → Msg
  | .mnil, _, _ => .mnil
  | .mcons f fv rest, k, nfv =>
      if f.name = k then .mcons f nfv rest
      else .mcons f fv (setFirst rest k nfv)

/-- Modelled from the spec: `messages.Message.reset` is not under `src/`.
The spec's schema capability provides per-field value reset operations, and
the decode specification states that a `null` value for a known field clears
that field while unknown keys are silently discarded, so `reset` clears the
first slot with the given name and leaves the message unchanged when no field
has that name. -/
def resetField : Msg → String → Msg
  | .mnil, _ => .mnil
  | .mcons f _fv rest, k =>
      if f.name = k then .mcons f .unset rest
      else .mcons f _fv (resetField rest k)

/-! ### Base64 (the `base64.b64encode` / `base64.b64decode` library calls)

`base64` is a Python standard-library module; the codec calls it for bytes
fields.  It is modelled concretely: standard base64 with `=` padding.  The
model decodes well-padded input (which is all the codec's encoder ever
produces); Python 2's leniency towards foreign characters in the input is not
modelled. -/

/-- The 64-character base64 alphabet. -/
def b64alphabet : List Char :=
  ['A', 'B', 'C', 'D', 'E', 'F', 'G', 'H', 'I', 'J', 'K', 'L', 'M',
   'N', 'O', 'P', 'Q', 'R', 'S', 'T', 'U', 'V', 'W', 'X', 'Y', 'Z',
   'a', 'b', 'c', 'd', 'e', 'f', 'g', 'h', 'i', 'j', 'k', 'l', 'm',
   'n', 'o', 'p', 'q', 'r', 's', 't', 'u', 'v', 'w', 'x', 'y', 'z',
   '0', '1', '2', '3', '4', '5', '6', '7', '8', '9', '+', '/']

/-- The alphabet character for a sextet. -/
def sextetChar (n : Nat) : Char := b64alphabet.getD n 'A'

/-- The sextet for an alphabet character, if it is one. -/
def charSextet (c : Char) : Option Nat := b64alphabet.indexOf? c

theorem charSextet_sextetChar_fin :
    ∀ s : Fin 64, charSextet (sextetChar s.val) = some s.val := by decide

theorem sextetChar_ne_pad_fin : ∀ s : Fin 64, sextetChar s.val ≠ '=' := by
  decide

theorem charSextet_sextetChar (s : Nat) (h : s < 64) :
    charSextet (sextetChar s) = some s := charSextet_sextetChar_fin ⟨s, h⟩

theorem sextetChar_ne_pad (s : Nat) (h : s < 64) : sextetChar s ≠ '=' :=
  sextetChar_ne_pad_fin ⟨s, h⟩

/-- `base64.b64encode` on a byte list: groups of three bytes become four
alphabet characters; a final group of one or two bytes is padded with `=`. -/
def b64encodeBytes : List Nat → List Char
  | [] => []
  | [a] => [sextetChar (a / 4), sextetChar (a % 4 * 16), '=', '=']
  | [a, b] =>
      [sextetChar (a / 4), sextetChar (a % 4 * 16 + b / 16),
       sextetChar (b % 16 * 4), '=']
  | a :: b :: c :: rest =>
      sextetChar (a / 4) :: sextetChar (a % 4 * 16 + b / 16) ::
        sextetChar (b % 16 * 4 + c / 64) :: sextetChar (c % 64) ::
        b64encodeBytes rest

/-- `base64.b64decode` on a character list: processes four characters at a
time, handling `=` padding in the final quad; anything else fails
(incorrect padding). -/
def b64decodeChars : List Char → Option (List Nat)
  | [] => some []
  | c1 :: c2 :: c3 :: c4 :: rest =>
      if c3 = '=' then
        if c4 = '=' ∧ rest = [] then do
          let s1 ← charSextet c1
          let s2 ← charSextet c2
          some [s1 * 4 + s2 / 16]
        else none
      else if c4 = '=' then
        if rest = [] then do
          let s1 ← charSextet c1
          let s2 ← charSextet c2
          let s3 ← charSextet c3
          some [s1 * 4 + s2 / 16, s2 % 16 * 16 + s3 / 4]
        else none
      else do
        let s1 ← charSextet c1
        let s2 ← charSextet c2
        let s3 ← charSextet c3
        let s4 ← charSextet c4
        let tail ← b64decodeChars rest
        some ((s1 * 4 + s2 / 16) :: (s2 % 16 * 16 + s3 / 4) ::
          (s3 % 4 * 64 + s4) :: tail)
  | _ => none

theorem b64decode_encode_chars : (bs : List Nat) → (∀ b ∈ bs, b < 256) →
    b64decodeChars (b64encodeBytes bs) = some bs
  | [], _ => rfl
  | [a], h => by
      have ha : a < 256 := h a (by simp)
      have h1 := charSextet_sextetChar (a / 4) (by omega)
      have h2 := charSextet_sextetChar (a % 4 * 16) (by omega)
      simp [b64encodeBytes, b64decodeChars, h1, h2]
      omega
  | [a, b], h => by
      have ha : a < 256 := h a (by simp)
      have hb : b < 256 := h b (by simp)
      have hne : sextetChar (b % 16 * 4) ≠ '=' := sextetChar_ne_pad _ (by omega)
      have h1 := charSextet_sextetChar (a / 4) (by omega)
      have h2 := charSextet_sextetChar (a % 4 * 16 + b / 16) (by omega)
      have h3 := charSextet_sextetChar (b % 16 * 4) (by omega)
      simp [b64encodeBytes, b64decodeChars, hne, h1, h2, h3]
      omega
  | [a, b, c], h => by
      have ha : a < 256 := h a (by simp)
      have hb : b < 256 := h b (by simp)
      have hc : c < 256 := h c (by simp)
      have hne3 : sextetChar (b % 16 * 4 + c / 64) ≠ '=' :=
        sextetChar_ne_pad _ (by omega)
      have hne4 : sextetChar (c % 64) ≠ '=' := sextetChar_ne_pad _ (by omega)
      have h1 := charSextet_sextetChar (a / 4) (by omega)
      have h2 := charSextet_sextetChar (a % 4 * 16 + b / 16) (by omega)
      have h3 := charSextet_sextetChar (b % 16 * 4 + c / 64) (by omega)
      have h4 := charSextet_sextetChar (c % 64) (by omega)
      simp [b64encodeBytes, b64decodeChars, hne3, hne4, h1, h2, h3, h4]
      omega
  | a :: b :: c :: d :: rest, h => by
      have ha : a < 256 := h a (by simp)
      have hb : b < 256 := h b (by simp)
      have hc : c < 256 := h c (by simp)
      have ih := b64decode_encode_chars (d :: rest)
        (fun x hx => h x (by simp at hx ⊢; tauto))
      have hne3 : sextetChar (b % 16 * 4 + c / 64) ≠ '=' :=
        sextetChar_ne_pad _ (by omega)
      have hne4 : sextetChar (c % 64) ≠ '=' := sextetChar_ne_pad _ (by omega)
      have h1 := charSextet_sextetChar (a / 4) (by omega)
      have h2 := charSextet_sextetChar (a % 4 * 16 + b / 16) (by omega)
      have h3 := charSextet_sextetChar (b % 16 * 4 + c / 64) (by omega)
      have h4 := charSextet_sextetChar (c % 64) (by omega)
      rw [show b64encodeBytes (a :: b :: c :: d :: rest) =
        sextetChar (a / 4) :: sextetChar (a % 4 * 16 + b / 16) ::
          sextetChar (b % 16 * 4 + c / 64) :: sextetChar (c % 64) ::
          b64encodeBytes (d :: rest) from rfl]
      simp [b64decodeChars, hne3, hne4, h1, h2, h3, h4, ih]
      omega

/-- `base64.b64encode`: byte list to base64 text. -/
def b64encode (bs : List Nat) : String := String.mk (b64encodeBytes bs)

/-- `base64.b64decode`: base64 text back to a byte list. -/
def b64decode (s : String) : Option (List Nat) := b64decodeChars s.data

theorem b64decode_b64encode (bs : List Nat) (h : ∀ b ∈ bs, b < 256) :
    b64decode (b64encode bs) = some bs := by
  simpa [b64encode, b64decode] using b64decode_encode_chars bs h

theorem field_by_name_none_of_not_mem : {d : MsgDescr} → {k : String} →
    k ∉ descrNames d → field_by_name d k = none
  | .dnil, _, _ => rfl
  | .dcons f rest, k, h => by
      simp only [descrNames, List.mem_cons, not_or] at h
      simp [field_by_name, Ne.symm h.1, field_by_name_none_of_not_mem h.2]

theorem resetField_of_not_mem : {m : Msg} → {k : String} →
    k ∉ descrNames (descrOf m) → resetField m k = m
  | .mnil, _, _ => rfl
  | .mcons f fv rest, k, h => by
      simp only [descrOf, descrNames, List.mem_cons, not_or] at h
      simp [resetField, Ne.symm h.1, resetField_of_not_mem h.2]

/-! ### Schema equality -/

mutual
def beqKind : FieldKind → FieldKind → Bool
  | .kint, .kint => true
  | .kfloat, .kfloat => true
  | .kstr, .kstr => true
  | .kbool, .kbool => true
  | .kbytes, .kbytes => true
  | .kenum vs1, .kenum vs2 => vs1 == vs2
  | .kmsg d1, .kmsg d2 => beqDescr d1 d2
  | _, _ => false

def beqField : FieldDescr → FieldDescr → Bool
  | .mk n1 k1 r1 q1, .mk n2 k2 r2 q2 =>
      n1 == n2 && beqKind k1 k2 && r1 == r2 && q1 == q2

def beqDescr : MsgDescr → MsgDescr → Bool
  | .dnil, .dnil => true
  | .dcons f1 r1, .dcons f2 r2 => beqField f1 f2 && beqDescr r1 r2
  | _, _ => false
end

mutual
theorem beqKind_sound : {k1 k2 : FieldKind} → beqKind k1 k2 = true → k1 = k2
  | .kint, .kint, _ => rfl
  | .kfloat, .kfloat, _ => rfl
  | .kstr, .kstr, _ => rfl
  | .kbool, .kbool, _ => rfl
  | .kbytes, .kbytes, _ => rfl
  | .kenum vs1, .kenum vs2, h => by
      simp only [beqKind, beq_iff_eq] at h
      simp [h]
  | .kmsg d1, .kmsg d2, h => by
      simp only [beqKind] at h
      simp [beqDescr_sound h]

theorem beqField_sound : {f1 f2 : FieldDescr} → beqField f1 f2 = true → f1 = f2
  | .mk n1 k1 r1 q1, .mk n2 k2 r2 q2, h => by
      simp only [beqField, Bool.and_eq_true, beq_iff_eq] at h
      obtain ⟨⟨⟨h1, h2⟩, h3⟩, h4⟩ := h
      simp [h1, beqKind_sound h2, h3, h4]

theorem beqDescr_sound : {d1 d2 : MsgDescr} → beqDescr d1 d2 = true → d1 = d2
  | .dnil, .dnil, _ => rfl
  | .dcons f1 r1, .dcons f2 r2, h => by
      simp only [beqDescr, Bool.and_eq_true] at h
      simp [beqField_sound h.1, beqDescr_sound h.2]
end

mutual
theorem beqKind_refl : (k : FieldKind) → beqKind k k = true
  | .kint => rfl
  | .kfloat => rfl
  | .kstr => rfl
  | .kbool => rfl
  | .kbytes => rfl
  | .kenum vs => by simp [beqKind]
  | .kmsg d => by simp [beqKind, beqDescr_refl d]

theorem beqField_refl : (f : FieldDescr) → beqField f f = true
  | .mk n k r q => by simp [beqField, beqKind_refl k]

theorem beqDescr_refl : (d : MsgDescr) → beqDescr d d = true
  | .dnil => rfl
  | .dcons f r => by simp [beqDescr, beqField_refl f, beqDescr_refl r]
end

/-! ### Enum types

An enum type is its list of (symbolic name, number) pairs.  `str(enum_value)`
renders the symbolic name; the enum constructor `field.type(item)` accepts a
name or a number. -/

/-- `str(enum_value)`: the symbolic name of an enum number. -/
def enumName (variants : List (String × Int)) (n : Int) : Option String :=
  (variants.find? (fun p => p.2 == n)).map (·.1)

/-- The enum constructor applied to a name: the number it denotes. -/
def enumNumber (variants : List (String × Int)) (nm : String) : Option Int :=
  (variants.find? (fun p => p.1 == nm)).map (·.2)

/-- The enum constructor applied to a number: valid iff some variant has it. -/
def enumHasNumber (variants : List (String × Int)) (n : Int) : Bool :=
  variants.any (fun p => p.2 == n)

/-- A well-formed enum member: its number has a symbolic name and that name
maps back to the same number (true of any real enum type, whose names and
numbers are unique). -/
def enumRT (variants : List (String × Int)) (n : Int) : Bool :=
  match enumName variants n with
  | some nm => enumNumber variants nm == some n
  | none => false

/-! ### Well-typed messages

A message instance a real Python program can build: every slot value matches
its descriptor's kind and arity (the schema's `setattr` validates this), enum
members are valid, bytes are bytes, nested messages carry the nested schema.
For the round-trip theorem the predicate additionally rules out assigned empty
collections (`many .vnil`), the default/empty-collection distinction the
round-trip claim explicitly does not rely on. -/

def VList.isNil : VList → Bool
  | .vnil => true
  | .vcons _ _ => false

/-- The field names of a message instance, in order. -/
def msgNames : Msg → List String
  | .mnil => []
  | .mcons f _ rest => f.name :: msgNames rest

theorem msgNames_eq_descrNames : (m : Msg) →
    msgNames m = descrNames (descrOf m)
  | .mnil => rfl
  | .mcons f fv rest => by
      simp [msgNames, descrOf, descrNames, msgNames_eq_descrNames rest]

mutual
def wtValue : FieldKind → Value → Bool
  | .kint, .vint _ => true
  | .kfloat, .vfloat _ => true
  | .kstr, .vstr _ => true
  | .kbool, .vbool _ => true
  | .kbytes, .vbytes bs => bs.all (· < 256)
  | .kenum vs, .venum vs2 n => vs2 == vs && enumRT vs n
  | .kmsg d, .vmsg m => beqDescr (descrOf m) d && wtMsg m
  | _, _ => false

def wtVList : FieldKind → VList → Bool
  | _, .vnil => true
  | k, .vcons v rest => wtValue k v && wtVList k rest

def wtField : FieldDescr → FieldVal → Bool
  | _, .unset => true
  | f, .one v => !f.repeated && wtValue f.kind v
  | f, .many vs => f.repeated && wtVList f.kind vs

def wtMsg : Msg → Bool
  | .mnil => true
  | .mcons f fv rest =>
      !(msgNames rest).contains f.name && wtField f fv && wtMsg rest
end

/-! ### Messages that do not rely on the default/empty-collection distinction

Encoding omits an assigned-but-empty repeated field exactly like an unset
one, so decoding cannot tell them apart; the round-trip claim explicitly
excludes messages relying on that distinction.  `noEmptyLists` says no field,
transitively, holds an assigned empty collection. -/

mutual
def noEmptyValue : Value → Bool
  | .vmsg m => noEmptyLists m
  | _ => true

def noEmptyVList : VList → Bool
  | .vnil => true
  | .vcons v rest => noEmptyValue v && noEmptyVList rest

def noEmptyFieldVal : FieldVal → Bool
  | .unset => true
  | .one v => noEmptyValue v
  | .many .vnil => false
  | .many vs => noEmptyVList vs

def noEmptyLists : Msg → Bool
  | .mnil => true
  | .mcons _ fv rest => noEmptyFieldVal fv && noEmptyLists rest
end

/-! ### `check_initialized`

Modelled from the spec: `messages.Message.check_initialized` is not under
`src/`.  The spec defines: initialized ⇔ every required field, transitively,
including inside nested messages, has an assigned value. -/

mutual
def check_initialized : Msg → Bool
  | .mnil => true
  | .mcons f fv rest => checkSlot f fv && check_initialized rest

def checkSlot : FieldDescr → FieldVal → Bool
  | f, .unset => !f.required
  | _, .one v => checkValueInit v
  | _, .many vs => checkVListInit vs

def checkValueInit : Value → Bool
  | .vmsg m => check_initialized m
  | _ => true

def checkVListInit : VList → Bool
  | .vnil => true
  | .vcons v rest => checkValueInit v && checkVListInit rest
end

/-! ### Python exceptions -/

/-- The Python exceptions the codec can raise.  `validationError` and
`decodeError` are `messages.ValidationError` / `messages.DecodeError` — the
two classes the dispatcher's request-decode `except` clause catches; the
others (`ValueError` from `simplejson.loads` and `base64`, `TypeError` from
the enum constructor, `AttributeError` from `.iteritems()` on a non-dict)
propagate out of the dispatcher uncaught. -/
inductive PyErr where
  | valueError (msg : String)
  | typeError (msg : String)
  | attributeError (msg : String)
  | validationError (msg : String)
  | decodeError (msg : String)
deriving DecidableEq

/-! ### The JSON encoder (`_MessageJSONEncoder.default` and `encode_message`) -/

/-- Raw bytes rendered directly as a JSON string (only reachable for a bytes
value outside a bytes field, which a well-typed message never contains). -/
def bytesAsText (bs : List Nat) : String := String.mk (bs.map Char.ofNat)

mutual
/-- `_MessageJSONEncoder.default` on a single value: enum values render as
their symbolic name string (`str(value)`), message values recursively as JSON
objects; other scalars pass through. -/
def encodeItem : Value → JValue
  | .vint n => .jint n
  | .vfloat q => .jfloat q
  | .vstr s => .jstr s
  | .vbool b => .jbool b
  | .vbytes bs => .jstr (bytesAsText bs)
  | .venum vs n => .jstr ((enumName vs n).getD "")
  | .vmsg m => .jobj (encode_dict m)

/-- The items of a repeated field, with the `BytesField` special case applied
to each (`[base64.b64encode(i) for i in item]`). -/
def encodeVListK (k : FieldKind) : VList → List JValue
  | .vnil => []
  | .vcons v rest =>
      (match k, v with
        | .kbytes, .vbytes bs => .jstr (b64encode bs)
        | _, _ => encodeItem v) :: encodeVListK k rest

/-- The field loop of `_MessageJSONEncoder.default` on a message: for each
field in schema order whose assigned value is not `None` and not an empty
sequence, emit the rendered value under the field's name (a bytes value in a
bytes field is base64-encoded first). -/
def encode_dict : Msg → List (String × JValue)
  | .mnil => []
  | .mcons _ .unset rest => encode_dict rest
  | .mcons f (.one v) rest =>
      (f.name,
        match f.kind, v with
        | .kbytes, .vbytes bs => .jstr (b64encode bs)
        | _, _ => encodeItem v) :: encode_dict rest
  | .mcons _ (.many .vnil) rest => encode_dict rest
  | .mcons f (.many (.vcons v vs)) rest =>
      (f.name, .jarr (encodeVListK f.kind (.vcons v vs))) :: encode_dict rest
end

/-- One field item after the `BytesField` special case: a bytes value in a
bytes field is base64-encoded first. -/
def renderItem (k : FieldKind) (v : Value) : JValue :=
  match k, v with
  | .kbytes, .vbytes bs => .jstr (b64encode bs)
  | _, _ => encodeItem v

def renderVList (k : FieldKind) : VList → List JValue
  | .vnil => []
  | .vcons v rest => renderItem k v :: renderVList k rest

theorem encodeVListK_eq (k : FieldKind) : (vs : VList) →
    encodeVListK k vs = renderVList k vs
  | .vnil => rfl
  | .vcons v rest => by
      have ih := encodeVListK_eq k rest
      cases k <;> cases v <;>
        exact congrArg (List.cons _) ih

theorem encode_dict_nil : encode_dict .mnil = [] := rfl

theorem encode_dict_unset (f : FieldDescr) (rest : Msg) :
    encode_dict (.mcons f .unset rest) = encode_dict rest := rfl

theorem encode_dict_one (f : FieldDescr) (v : Value) (rest : Msg) :
    encode_dict (.mcons f (.one v) rest) =
      (f.name, renderItem f.kind v) :: encode_dict rest := by
  cases f with
  | mk n k r q => cases k <;> cases v <;> rfl

theorem encode_dict_empty_rep (f : FieldDescr) (rest : Msg) :
    encode_dict (.mcons f (.many .vnil) rest) = encode_dict rest := rfl

theorem encode_dict_rep (f : FieldDescr) (v : Value) (vs : VList)
    (rest : Msg) :
    encode_dict (.mcons f (.many (.vcons v vs)) rest) =
      (f.name, .jarr (renderVList f.kind (.vcons v vs))) :: encode_dict rest :=
  by
  calc encode_dict (.mcons f (.many (.vcons v vs)) rest)
      = (f.name, .jarr (encodeVListK f.kind (.vcons v vs))) ::
          encode_dict rest := rfl
    _ = (f.name, .jarr (renderVList f.kind (.vcons v vs))) ::
          encode_dict rest := by rw [encodeVListK_eq]

/-- `encode_message`: check the message is initialized, then serialize it as
one JSON object (`simplejson.dumps` with `_MessageJSONEncoder`). -/
def encode_message (m : Msg) : Except PyErr Wire :=
  if check_initialized m then .ok (.json (.jobj (encode_dict m)))
  else .error (.validationError "Message is not initialized.")

/-! ### The JSON decoder (`decode_dictionary` and `decode_message`) -/

/-- A per-item conversion result inside `decode_dictionary`'s loop: the
enum / bytes / message / float branches produce a typed value, all other
items pass through unmodified as raw JSON (schema assignment validates
type). -/
inductive Conv where
  | typed (v : Value)
  | raw (j : JValue)

/-- Modelled from the spec: the schema's `setattr` validation is part of
`messages.py`, which is not under `src/`; per the spec, "schema assignment
validates type".  A converted value is accepted as-is; a raw JSON item is
accepted when it matches the field kind. -/
def assignOne (k : FieldKind) : Conv → Option Value
  | .typed v => some v
  | .raw j =>
      match k, j with
      | .kint, .jint n => some (.vint n)
      | .kfloat, .jfloat q => some (.vfloat q)
      | .kstr, .jstr s => some (.vstr s)
      | .kbool, .jbool b => some (.vbool b)
      | _, _ => none

/-- Validated assignment of a whole converted list (repeated field). -/
def assignList (k : FieldKind) : List Conv → Option (List Value)
  | [] => some []
  | c :: cs => do
      let v ← assignOne k c
      let vs ← assignList k cs
      some (v :: vs)

@[simp] theorem okBind {α β ε : Type} (a : α) (f : α → Except ε β) :
    (Except.ok a : Except ε α) >>= f = f a := rfl

@[simp] theorem errBind {α β ε : Type} (e : ε) (f : α → Except ε β) :
    (Except.error e : Except ε α) >>= f = Except.error e := rfl

/-- `value is None`. -/
def JValue.isNull : JValue → Bool
  | .jnull => true
  | _ => false

/-- Normalize a JSON value into a list of items
(`if isinstance(value, list) ... else value = [value]`). -/
def normItems : JValue → List JValue
  | .jarr l => l
  | v => [v]

theorem sizeOf_kind_lt : {d : MsgDescr} → {k : String} → {f : FieldDescr} →
    field_by_name d k = some f → sizeOf f.kind < sizeOf d
  | .dcons f' rest, k, f, h => by
      simp only [field_by_name] at h
      by_cases hn : f'.name = k
      · rw [if_pos hn] at h
        cases h
        cases f' with
        | mk n kd rp rq =>
            simp only [FieldDescr.kind, MsgDescr.dcons.sizeOf_spec,
              FieldDescr.mk.sizeOf_spec]
            omega
      · rw [if_neg hn] at h
        have := sizeOf_kind_lt h
        simp only [MsgDescr.dcons.sizeOf_spec]
        omega

mutual
/-- `decode_dictionary` from `protojson.py`: construct a fresh message of the
given type and merge the parsed JSON object into it, key by key. -/
def decode_dictionary (d : MsgDescr) (dict : List (String × JValue)) :
    Except PyErr Msg :=
  decodePairs d (fresh d) dict
termination_by (sizeOf d, sizeOf dict + 1)

/-- The `for key, value in dictionary.iteritems()` loop. -/
def decodePairs (d : MsgDescr) (m : Msg) (l : List (String × JValue)) :
    Except PyErr Msg :=
  match l with
  | [] => .ok m
  | (k, v) :: rest => do
      let m' ← decodePair d m k v
      decodePairs d m' rest
termination_by (sizeOf d, sizeOf l)

/-- One iteration of the loop: `null` resets the field; unknown keys are
skipped; otherwise normalize to a list, convert each item by field kind, and
assign (the whole list for a repeated field, the last element otherwise). -/
def decodePair (d : MsgDescr) (m : Msg) (k : String) (v : JValue) :
    Except PyErr Msg :=
  if v.isNull then .ok (resetField m k)
  else
    match hf : field_by_name d k with
    | none => .ok m
    | some f =>
      let items := normItems v
      if items.isEmpty then .ok m
      else do
        let convs ← convertItems f.kind items
        if f.repeated then
          match assignList f.kind convs with
          | some vals => .ok (setFirst m k (.many (VList.ofList vals)))
          | none => .error (.validationError "Expected type mismatch")
        else
          match convs.getLast? with
          | some c =>
              match assignOne f.kind c with
              | some v' => .ok (setFirst m k (.one v'))
              | none => .error (.validationError "Expected type mismatch")
          | none => .error (.attributeError "list index out of range")
termination_by (sizeOf d, sizeOf v)
decreasing_by
  exact Prod.Lex.left _ _ (sizeOf_kind_lt hf)

/-- The `for item in value` conversion loop building `valid_value`. -/
def convertItems (k : FieldKind) (l : List JValue) :
    Except PyErr (List Conv) :=
  match l with
  | [] => .ok []
  | item :: rest => do
      let c ← convertItem k item
      let cs ← convertItems k rest
      .ok (c :: cs)
termination_by (sizeOf k, sizeOf l)

/-- Per-element conversion by field kind: enum by name or number, bytes by
base64, message by recursive merge, integral JSON numbers coerced for float
fields; everything else passes through unmodified. -/
def convertItem (k : FieldKind) (item : JValue) : Except PyErr Conv :=
  match k, item with
  | .kenum vs, .jstr s =>
      match enumNumber vs s with
      | some n => .ok (.typed (.venum vs n))
      | none => .error (.typeError "No such value for name in Enum")
  | .kenum vs, .jint n =>
      if enumHasNumber vs n then .ok (.typed (.venum vs n))
      else .error (.typeError "No such value for number in Enum")
  | .kenum _, _ => .error (.typeError "No such value in Enum")
  | .kbytes, .jstr s =>
      match b64decode s with
      | some bs => .ok (.typed (.vbytes bs))
      | none => .error (.valueError "Incorrect padding")
  | .kbytes, _ => .error (.typeError "b64decode expects a string")
  | .kmsg d2, .jobj members => do
      let m ← decode_dictionary d2 members
      .ok (.typed (.vmsg m))
  | .kmsg _, _ =>
      .error (.attributeError "object has no attribute iteritems")
  | .kfloat, .jint n => .ok (.typed (.vfloat (n : Rat)))
  | _, j => .ok (.raw j)
termination_by (sizeOf k, sizeOf item)
end

/-- `decode_message`: empty or all-whitespace input returns a fresh empty
instance (with no initialized check); malformed input raises the JSON
library's `ValueError`; otherwise merge the parsed object and check the
result is initialized. -/
def decode_message (d : MsgDescr) (w : Wire) : Except PyErr Msg :=
  match w with
  | .empty => .ok (fresh d)
  | .malformed => .error (.valueError "No JSON object could be decoded")
  | .json v =>
      match v with
      | .jobj members => do
          let m ← decode_dictionary d members
          if check_initialized m then .ok m
          else .error (.validationError "Message is not initialized.")
      | _ => .error (.attributeError "object has no attribute iteritems")

/-! ### Unfolding and commutation lemmas for the decoder -/

theorem decodePairs_nil (d : MsgDescr) (m : Msg) :
    decodePairs d m [] = .ok m := by
  simp [decodePairs]

theorem decodePairs_cons (d : MsgDescr) (m : Msg) (k : String) (v : JValue)
    (rest : List (String × JValue)) :
    decodePairs d m ((k, v) :: rest) =
      decodePair d m k v >>= fun m' => decodePairs d m' rest := by
  conv_lhs => rw [decodePairs]

theorem convertItems_nil (k : FieldKind) : convertItems k [] = .ok [] := by
  simp [convertItems]

theorem convertItems_cons (k : FieldKind) (item : JValue) (rest : List JValue) :
    convertItems k (item :: rest) =
      convertItem k item >>= fun c =>
        convertItems k rest >>= fun cs => .ok (c :: cs) := by
  conv_lhs => rw [convertItems]

theorem setFirst_cons_ne {f : FieldDescr} {k : String} (fv nfv : FieldVal)
    (rest : Msg) (hne : f.name ≠ k) :
    setFirst (.mcons f fv rest) k nfv = .mcons f fv (setFirst rest k nfv) := by
  simp [setFirst, hne]

theorem setFirst_cons_eq {f : FieldDescr} (fv nfv : FieldVal) (rest : Msg) :
    setFirst (.mcons f fv rest) f.name nfv = .mcons f nfv rest := by
  simp [setFirst]

theorem resetField_cons_ne {f : FieldDescr} {k : String} (fv : FieldVal)
    (rest : Msg) (hne : f.name ≠ k) :
    resetField (.mcons f fv rest) k = .mcons f fv (resetField rest k) := by
  simp [resetField, hne]

theorem field_by_name_cons_ne {f : FieldDescr} {k : String} (drest : MsgDescr)
    (hne : f.name ≠ k) :
    field_by_name (.dcons f drest) k = field_by_name drest k := by
  simp [field_by_name, hne]

theorem field_by_name_cons_eq {f : FieldDescr} (drest : MsgDescr) :
    field_by_name (.dcons f drest) f.name = some f := by
  simp [field_by_name]

@[simp] theorem getLast?_singleton {α : Type} (a : α) :
    [a].getLast? = some a := rfl

/-- `decodePair` on a `null` value: reset the field. -/
theorem decodePair_null {v : JValue} (d : MsgDescr) (m : Msg) (k : String)
    (hv : v.isNull = true) : decodePair d m k v = .ok (resetField m k) := by
  simp [decodePair, hv]

/-- `decodePair` on an unknown key: the pair is skipped. -/
theorem decodePair_lookup_none {d : MsgDescr} {k : String} {v : JValue}
    (m : Msg) (hv : v.isNull = false) (hf : field_by_name d k = none) :
    decodePair d m k v = .ok m := by
  rw [decodePair]
  rw [hv]
  simp only [Bool.false_eq_true, if_false]
  split
  · rfl
  · rename_i f1 heq
    rw [hf] at heq
    exact Option.noConfusion heq

/-- `decodePair` when the key names a field: normalize, convert, assign. -/
theorem decodePair_lookup_some {d : MsgDescr} {k : String} {v : JValue}
    {f : FieldDescr} (m : Msg) (hv : v.isNull = false)
    (hf : field_by_name d k = some f) :
    decodePair d m k v =
      (if (normItems v).isEmpty then .ok m
       else do
         let convs ← convertItems f.kind (normItems v)
         if f.repeated then
           match assignList f.kind convs with
           | some vals => .ok (setFirst m k (.many (VList.ofList vals)))
           | none => .error (.validationError "Expected type mismatch")
         else
           match convs.getLast? with
           | some c =>
               match assignOne f.kind c with
               | some v' => .ok (setFirst m k (.one v'))
               | none => .error (.validationError "Expected type mismatch")
           | none => .error (.attributeError "list index out of range")) := by
  rw [decodePair]
  rw [hv]
  simp only [Bool.false_eq_true, if_false]
  split
  · rename_i heq
    rw [hf] at heq
    exact Option.noConfusion heq
  · rename_i f1 heq
    rw [hf] at heq
    cases heq
    rfl

/-- Merging one key that is not the head field's name commutes with the head
slot: the head descriptor is skipped during lookup and the head value is
untouched by reset/assignment. -/
theorem decodePair_cons {f : FieldDescr} {k : String} (drest : MsgDescr)
    (fv : FieldVal) (acc : Msg) (v : JValue) (hne : f.name ≠ k) :
    decodePair (.dcons f drest) (.mcons f fv acc) k v =
      Except.map (.mcons f fv) (decodePair drest acc k v) := by
  by_cases hv : v.isNull
  · simp [decodePair, hv, resetField_cons_ne fv acc hne, Except.map]
  · simp only [Bool.not_eq_true] at hv
    rw [decodePair, decodePair, field_by_name_cons_ne drest hne]
    cases hfb : field_by_name drest k with
    | none => simp [hv, Except.map]
    | some f' =>
        simp only [hv, Bool.false_eq_true, if_false]
        by_cases hemp : (normItems v).isEmpty
        · simp [hemp, Except.map]
        · simp only [hemp, Bool.false_eq_true, if_false]
          cases hconv : convertItems f'.kind (normItems v) with
          | error e => simp [Except.map]
          | ok convs =>
              simp only [okBind]
              by_cases hrep : f'.repeated
              · simp only [hrep, if_true]
                cases hal : assignList f'.kind convs with
                | none => simp [hal, Except.map]
                | some vals =>
                    simp [hal, Except.map, setFirst_cons_ne _ _ acc hne]
              · simp only [hrep, Bool.false_eq_true, if_false]
                cases hgl : convs.getLast? with
                | none => simp [hgl, Except.map]
                | some c =>
                    cases hao : assignOne f'.kind c with
                    | none => simp [hgl, hao, Except.map]
                    | some v' =>
                        simp [hgl, hao, Except.map,
                          setFirst_cons_ne _ _ acc hne]

/-- `decodePair_cons` lifted to a whole list of keys. -/
theorem decodePairs_skip {f : FieldDescr} (drest : MsgDescr) (fv : FieldVal)
    (acc : Msg) (pairs : List (String × JValue))
    (hne : ∀ p ∈ pairs, p.1 ≠ f.name) :
    decodePairs (.dcons f drest) (.mcons f fv acc) pairs =
      Except.map (.mcons f fv) (decodePairs drest acc pairs) := by
  induction pairs generalizing acc with
  | nil => simp [decodePairs_nil, Except.map]
  | cons p rest ih =>
      obtain ⟨k, v⟩ := p
      have hk : f.name ≠ k := fun h => hne (k, v) (by simp) (by simp [h.symm])
      rw [decodePairs_cons, decodePairs_cons,
        decodePair_cons drest fv acc v hk]
      cases decodePair drest acc k v with
      | error e => simp [Except.map]
      | ok m' =>
          simp only [Except.map, okBind]
          exact ih m' (fun p hp => hne p (by simp [hp]))

/-- Every key the encoder emits is a field name of the message. -/
theorem encode_keys_sub : (m : Msg) → ∀ p ∈ encode_dict m, p.1 ∈ msgNames m
  | .mnil => by simp [encode_dict_nil]
  | .mcons f fv rest => by
      have ih := encode_keys_sub rest
      cases fv with
      | unset =>
          simp only [encode_dict_unset, encode_dict_one, encode_dict_empty_rep, encode_dict_rep]
          exact fun p hp => by simp [msgNames, ih p hp]
      | one v =>
          simp only [encode_dict_unset, encode_dict_one, encode_dict_empty_rep, encode_dict_rep]
          intro p hp
          rcases List.mem_cons.mp hp with h | h
          · simp [h, msgNames]
          · simp [msgNames, ih p h]
      | many vs =>
          cases vs with
          | vnil =>
              simp only [encode_dict_unset, encode_dict_one, encode_dict_empty_rep, encode_dict_rep]
              exact fun p hp => by simp [msgNames, ih p hp]
          | vcons v vrest =>
              simp only [encode_dict_unset, encode_dict_one, encode_dict_empty_rep, encode_dict_rep]
              intro p hp
              rcases List.mem_cons.mp hp with h | h
              · simp [h, msgNames]
              · simp [msgNames, ih p h]

/-- The encoder never renders a field item as JSON `null`. -/
theorem renderItem_isNull (k : FieldKind) (v : Value) :
    (renderItem k v).isNull = false := by
  cases k <;> cases v <;> simp [renderItem, encodeItem, JValue.isNull]

/-- The encoder never renders a single field item as a JSON array, so
normalization wraps it in a singleton list. -/
theorem normItems_renderItem (k : FieldKind) (v : Value) :
    normItems (renderItem k v) = [renderItem k v] := by
  cases k <;> cases v <;> simp [renderItem, encodeItem, normItems]

/-! ### The round trip -/

mutual
/-- Per-item round trip: converting an encoded well-typed value back through
the decoder's per-kind conversion and assignment validation recovers the
value. -/
theorem rt_item : (k : FieldKind) → (v : Value) →
    (wtValue k v && noEmptyValue v) = true →
    ∃ c, convertItem k (renderItem k v) = .ok c ∧ assignOne k c = some v
  | .kint, .vint n, _ =>
      ⟨.raw (.jint n), by simp [renderItem, encodeItem, convertItem, assignOne]⟩
  | .kfloat, .vfloat q, _ =>
      ⟨.raw (.jfloat q), by simp [renderItem, encodeItem, convertItem, assignOne]⟩
  | .kstr, .vstr s, _ =>
      ⟨.raw (.jstr s), by simp [renderItem, encodeItem, convertItem, assignOne]⟩
  | .kbool, .vbool b, _ =>
      ⟨.raw (.jbool b), by simp [renderItem, encodeItem, convertItem, assignOne]⟩
  | .kbytes, .vbytes bs, h => by
      have hb : ∀ b ∈ bs, b < 256 := by
        simpa [wtValue, noEmptyValue, List.all_eq_true] using h
      exact ⟨.typed (.vbytes bs),
        by simp [renderItem, convertItem, b64decode_b64encode bs hb],
        by simp [assignOne]⟩
  | .kenum vs, .venum vs2 n, h => by
      obtain ⟨rfl, hrt⟩ : vs2 = vs ∧ enumRT vs n = true := by
        simpa [wtValue, noEmptyValue] using h
      obtain ⟨nm, hnm, hnum⟩ : ∃ nm, enumName vs2 n = some nm ∧
          enumNumber vs2 nm = some n := by
        unfold enumRT at hrt
        cases he : enumName vs2 n with
        | none => rw [he] at hrt; exact absurd hrt (by simp)
        | some nm =>
            rw [he] at hrt
            exact ⟨nm, rfl, by simpa using hrt⟩
      exact ⟨.typed (.venum vs2 n),
        by simp [renderItem, encodeItem, hnm, convertItem, hnum],
        by simp [assignOne]⟩
  | .kmsg d, .vmsg m', h => by
      obtain ⟨⟨hbeq, hwt⟩, hne⟩ :
          (beqDescr (descrOf m') d = true ∧ wtMsg m' = true) ∧
            noEmptyLists m' = true := by
        simpa [wtValue, noEmptyValue, Bool.and_eq_true] using h
      have hd : descrOf m' = d := beqDescr_sound hbeq
      refine ⟨.typed (.vmsg m'), ?_, by simp [assignOne]⟩
      have hm := rt_msg m' (by simp [hwt, hne])
      rw [← hd]
      simp [renderItem, encodeItem, convertItem, decode_dictionary, hm]
  | .kint, .vfloat _, h => Bool.noConfusion h
  | .kint, .vstr _, h => Bool.noConfusion h
  | .kint, .vbool _, h => Bool.noConfusion h
  | .kint, .vbytes _, h => Bool.noConfusion h
  | .kint, .venum _ _, h => Bool.noConfusion h
  | .kint, .vmsg _, h => Bool.noConfusion h
  | .kfloat, .vint _, h => Bool.noConfusion h
  | .kfloat, .vstr _, h => Bool.noConfusion h
  | .kfloat, .vbool _, h => Bool.noConfusion h
  | .kfloat, .vbytes _, h => Bool.noConfusion h
  | .kfloat, .venum _ _, h => Bool.noConfusion h
  | .kfloat, .vmsg _, h => Bool.noConfusion h
  | .kstr, .vint _, h => Bool.noConfusion h
  | .kstr, .vfloat _, h => Bool.noConfusion h
  | .kstr, .vbool _, h => Bool.noConfusion h
  | .kstr, .vbytes _, h => Bool.noConfusion h
  | .kstr, .venum _ _, h => Bool.noConfusion h
  | .kstr, .vmsg _, h => Bool.noConfusion h
  | .kbool, .vint _, h => Bool.noConfusion h
  | .kbool, .vfloat _, h => Bool.noConfusion h
  | .kbool, .vstr _, h => Bool.noConfusion h
  | .kbool, .vbytes _, h => Bool.noConfusion h
  | .kbool, .venum _ _, h => Bool.noConfusion h
  | .kbool, .vmsg _, h => Bool.noConfusion h
  | .kbytes, .vint _, h => Bool.noConfusion h
  | .kbytes, .vfloat _, h => Bool.noConfusion h
  | .kbytes, .vstr _, h => Bool.noConfusion h
  | .kbytes, .vbool _, h => Bool.noConfusion h
  | .kbytes, .venum _ _, h => Bool.noConfusion h
  | .kbytes, .vmsg _, h => Bool.noConfusion h
  | .kenum _, .vint _, h => Bool.noConfusion h
  | .kenum _, .vfloat _, h => Bool.noConfusion h
  | .kenum _, .vstr _, h => Bool.noConfusion h
  | .kenum _, .vbool _, h => Bool.noConfusion h
  | .kenum _, .vbytes _, h => Bool.noConfusion h
  | .kenum _, .vmsg _, h => Bool.noConfusion h
  | .kmsg _, .vint _, h => Bool.noConfusion h
  | .kmsg _, .vfloat _, h => Bool.noConfusion h
  | .kmsg _, .vstr _, h => Bool.noConfusion h
  | .kmsg _, .vbool _, h => Bool.noConfusion h
  | .kmsg _, .vbytes _, h => Bool.noConfusion h
  | .kmsg _, .venum _ _, h => Bool.noConfusion h

/-- Round trip for the payload of a repeated field. -/
theorem rt_vlist : (k : FieldKind) → (vs : VList) →
    (wtVList k vs && noEmptyVList vs) = true →
    ∃ cs, convertItems k (renderVList k vs) = .ok cs ∧
      assignList k cs = some vs.toList
  | k, .vnil, _ =>
      ⟨[], by simp [renderVList, convertItems_nil, assignList, VList.toList]⟩
  | k, .vcons v rest, h => by
      obtain ⟨⟨h1, h2⟩, h3, h4⟩ :
          (wtValue k v = true ∧ wtVList k rest = true) ∧
            noEmptyValue v = true ∧ noEmptyVList rest = true := by
        simpa [wtVList, noEmptyVList, Bool.and_eq_true] using h
      obtain ⟨c, hc, ha⟩ := rt_item k v (by simp [h1, h3])
      obtain ⟨cs, hcs, has⟩ := rt_vlist k rest (by simp [h2, h4])
      refine ⟨c :: cs, ?_, ?_⟩
      · simp [renderVList, convertItems_cons, hc, hcs]
      · simp [assignList, ha, has, VList.toList]

/-- The round trip at the message level, in accumulator form: merging the
encoded dictionary of a well-typed message (with no assigned empty
collections) into a fresh instance of its own type recovers the message. -/
theorem rt_msg : (m : Msg) → (wtMsg m && noEmptyLists m) = true →
    decodePairs (descrOf m) (fresh (descrOf m)) (encode_dict m) = .ok m
  | .mnil, _ => by simp [descrOf, fresh, encode_dict, decodePairs_nil]
  | .mcons f .unset rest, h => by
      obtain ⟨⟨⟨hname, -⟩, hrest⟩, -, hner⟩ :
          ((f.name ∉ msgNames rest ∧ wtField f .unset = true) ∧
            wtMsg rest = true) ∧
            noEmptyFieldVal .unset = true ∧ noEmptyLists rest = true := by
        simpa [wtMsg, noEmptyLists, Bool.and_eq_true, Bool.not_eq_true']
          using h
      have hskip : ∀ p ∈ encode_dict rest, p.1 ≠ f.name := fun p hp heq =>
        hname (heq ▸ encode_keys_sub rest p hp)
      have ihrest := rt_msg rest (by simp [hrest, hner])
      simp only [descrOf, fresh, encode_dict_unset, encode_dict_one, encode_dict_empty_rep, encode_dict_rep]
      rw [decodePairs_skip _ _ _ _ hskip, ihrest]
      simp [Except.map]
  | .mcons f (.one v) rest, h => by
      obtain ⟨⟨⟨hname, hfield⟩, hrest⟩, hnev, hner⟩ :
          ((f.name ∉ msgNames rest ∧ wtField f (.one v) = true) ∧
            wtMsg rest = true) ∧
            noEmptyValue v = true ∧ noEmptyLists rest = true := by
        simpa [wtMsg, noEmptyLists, noEmptyFieldVal, Bool.and_eq_true,
          Bool.not_eq_true'] using h
      obtain ⟨hnr, hwtv⟩ : f.repeated = false ∧ wtValue f.kind v = true := by
        simpa [wtField, Bool.and_eq_true, Bool.not_eq_true'] using hfield
      have hskip : ∀ p ∈ encode_dict rest, p.1 ≠ f.name := fun p hp heq =>
        hname (heq ▸ encode_keys_sub rest p hp)
      obtain ⟨c, hc, ha⟩ := rt_item f.kind v (by simp [hwtv, hnev])
      have ihrest := rt_msg rest (by simp [hrest, hner])
      simp only [descrOf, fresh, encode_dict_unset, encode_dict_one, encode_dict_empty_rep, encode_dict_rep]
      rw [decodePairs_cons]
      have hdp : decodePair (.dcons f (descrOf rest))
          (.mcons f .unset (fresh (descrOf rest))) f.name
          (renderItem f.kind v) =
          .ok (.mcons f (.one v) (fresh (descrOf rest))) := by
        rw [decodePair_lookup_some _ (renderItem_isNull f.kind v)
          (field_by_name_cons_eq (descrOf rest))]
        simp [normItems_renderItem, convertItems_cons, convertItems_nil, hc,
          hnr, ha, assignList, setFirst_cons_eq]
      rw [hdp]
      simp only [okBind]
      rw [decodePairs_skip _ _ _ _ hskip, ihrest]
      simp [Except.map]
  | .mcons f (.many .vnil) rest, h => by
      simp [wtMsg, noEmptyLists, noEmptyFieldVal] at h
  | .mcons f (.many (.vcons v vs)) rest, h => by
      obtain ⟨⟨⟨hname, hfield⟩, hrest⟩, hnel, hner⟩ :
          ((f.name ∉ msgNames rest ∧
            wtField f (.many (.vcons v vs)) = true) ∧ wtMsg rest = true) ∧
            noEmptyVList (.vcons v vs) = true ∧ noEmptyLists rest = true := by
        simpa [wtMsg, noEmptyLists, noEmptyFieldVal, Bool.and_eq_true,
          Bool.not_eq_true'] using h
      obtain ⟨hr, hwtl⟩ : f.repeated = true ∧
          wtVList f.kind (.vcons v vs) = true := by
        simpa [wtField, Bool.and_eq_true] using hfield
      have hskip : ∀ p ∈ encode_dict rest, p.1 ≠ f.name := fun p hp heq =>
        hname (heq ▸ encode_keys_sub rest p hp)
      obtain ⟨cs, hcs, has⟩ := rt_vlist f.kind (.vcons v vs)
        (by simp [hwtl, hnel])
      have ihrest := rt_msg rest (by simp [hrest, hner])
      simp only [descrOf, fresh, encode_dict_unset, encode_dict_one, encode_dict_empty_rep, encode_dict_rep]
      rw [decodePairs_cons]
      have hdp : decodePair (.dcons f (descrOf rest))
          (.mcons f .unset (fresh (descrOf rest))) f.name
          (.jarr (renderVList f.kind (.vcons v vs))) =
          .ok (.mcons f (.many (.vcons v vs)) (fresh (descrOf rest))) := by
        rw [decodePair_lookup_some _ (by simp [JValue.isNull])
          (field_by_name_cons_eq (descrOf rest))]
        rw [show normItems (.jarr (renderVList f.kind (.vcons v vs))) =
          renderVList f.kind (.vcons v vs) from rfl]
        rw [show (renderVList f.kind (.vcons v vs)).isEmpty = false from by
          simp [renderVList]]
        simp only [Bool.false_eq_true, if_false]
        rw [hcs]
        simp [hr, has, setFirst_cons_eq]
      rw [hdp]
      simp only [okBind]
      rw [decodePairs_skip _ _ _ _ hskip, ihrest]
      simp [Except.map]
end

/-! ### The wire-format characterization from the spec's words

A second encoder written from the spec (section 6, "Wire format"): one JSON
object per message whose keys are exactly the retained field names; `null`
and empty-collection values are omitted; enum values render as their symbolic
name string; bytes values render as base64 strings (arrays thereof when
repeated); nested messages render as nested JSON objects.  Compared with the
source encoder `encode_dict` by refinement theorems. -/

/-- A field value survives encoding iff it is assigned and not an empty
sequence. -/
def retained : FieldVal → Bool
  | .unset => false
  | .one _ => true
  | .many vs => !vs.isNil

mutual
def specRenderValue : Value → JValue
  | .vint n => .jint n
  | .vfloat q => .jfloat q
  | .vstr s => .jstr s
  | .vbool b => .jbool b
  | .vbytes bs => .jstr (b64encode bs)
  | .venum vs n => .jstr ((enumName vs n).getD "")
  | .vmsg m => .jobj (specEncode m)

def specRenderVList : VList → List JValue
  | .vnil => []
  | .vcons v rest => specRenderValue v :: specRenderVList rest

def specRenderFieldVal : FieldVal → JValue
  | .unset => .jnull
  | .one v => specRenderValue v
  | .many vs => .jarr (specRenderVList vs)

def specEncode : Msg → List (String × JValue)
  | .mnil => []
  | .mcons f fv rest =>
      (if retained fv then [(f.name, specRenderFieldVal fv)] else []) ++
        specEncode rest
end

/-- The names of the retained fields, in order. -/
def retainedNames : Msg → List String
  | .mnil => []
  | .mcons f fv rest =>
      (if retained fv then [f.name] else []) ++ retainedNames rest

/-- The encoder's keys are exactly the retained field names. -/
theorem encode_keys_exact : (m : Msg) →
    (encode_dict m).map Prod.fst = retainedNames m
  | .mnil => by simp [encode_dict_nil, retainedNames]
  | .mcons f .unset rest => by
      simp [encode_dict_unset, encode_dict_one, retainedNames, retained, encode_keys_exact rest]
  | .mcons f (.one v) rest => by
      simp [encode_dict_unset, encode_dict_one, retainedNames, retained, encode_keys_exact rest]
  | .mcons f (.many .vnil) rest => by
      simp [encode_dict_empty_rep, encode_dict_rep, retainedNames, retained, VList.isNil,
        encode_keys_exact rest]
  | .mcons f (.many (.vcons v vs)) rest => by
      simp [encode_dict_empty_rep, encode_dict_rep, retainedNames, retained, VList.isNil,
        encode_keys_exact rest]

mutual
/-- A well-typed value renders exactly as the spec's wire format says. -/
theorem spec_item : (v : Value) → (k : FieldKind) → wtValue k v = true →
    renderItem k v = specRenderValue v
  | .vint n, k, h => by
      cases k <;> first
        | (simp [wtValue] at h; done)
        | simp [renderItem, encodeItem, specRenderValue]
  | .vfloat q, k, h => by
      cases k <;> first
        | (simp [wtValue] at h; done)
        | simp [renderItem, encodeItem, specRenderValue]
  | .vstr s, k, h => by
      cases k <;> first
        | (simp [wtValue] at h; done)
        | simp [renderItem, encodeItem, specRenderValue]
  | .vbool b, k, h => by
      cases k <;> first
        | (simp [wtValue] at h; done)
        | simp [renderItem, encodeItem, specRenderValue]
  | .vbytes bs, k, h => by
      cases k <;> first
        | (simp [wtValue] at h; done)
        | simp [renderItem, specRenderValue]
  | .venum vs n, k, h => by
      cases k <;> first
        | (simp [wtValue] at h; done)
        | simp [renderItem, encodeItem, specRenderValue]
  | .vmsg m', k, h => by
      cases k <;> first
        | (simp [wtValue] at h; done)
        | (obtain ⟨h1, h2⟩ : _ ∧ wtMsg m' = true := by
            simpa [wtValue] using h
           simp [renderItem, encodeItem, specRenderValue, spec_msg m' h2])

theorem spec_vlist : (vs : VList) → (k : FieldKind) → wtVList k vs = true →
    renderVList k vs = specRenderVList vs
  | .vnil, _, _ => by simp [renderVList, specRenderVList]
  | .vcons v rest, k, h => by
      obtain ⟨h1, h2⟩ : wtValue k v = true ∧ wtVList k rest = true := by
        simpa [wtVList] using h
      simp [renderVList, specRenderVList, spec_item v k h1,
        spec_vlist rest k h2]

/-- The source encoder emits exactly the spec's wire format. -/
theorem spec_msg : (m : Msg) → wtMsg m = true →
    encode_dict m = specEncode m
  | .mnil, _ => by simp [encode_dict_nil, specEncode]
  | .mcons f .unset rest, h => by
      have hrest : wtMsg rest = true := by
        simp only [wtMsg, Bool.and_eq_true] at h
        exact h.2
      simp [encode_dict_unset, specEncode, retained, spec_msg rest hrest]
  | .mcons f (.one v) rest, h => by
      obtain ⟨⟨-, hfield⟩, hrest⟩ :
          (f.name ∉ msgNames rest ∧ wtField f (.one v) = true) ∧
            wtMsg rest = true := by
        simpa [wtMsg, Bool.and_eq_true, Bool.not_eq_true'] using h
      obtain ⟨-, hwtv⟩ : f.repeated = false ∧ wtValue f.kind v = true := by
        simpa [wtField, Bool.and_eq_true, Bool.not_eq_true'] using hfield
      simp [encode_dict_one, specEncode, retained, specRenderFieldVal,
        spec_item v f.kind hwtv, spec_msg rest hrest]
  | .mcons f (.many .vnil) rest, h => by
      have hrest : wtMsg rest = true := by
        simp only [wtMsg, Bool.and_eq_true] at h
        exact h.2
      simp [encode_dict_empty_rep, encode_dict_rep, specEncode, retained, VList.isNil,
        spec_msg rest hrest]
  | .mcons f (.many (.vcons v vs)) rest, h => by
      obtain ⟨⟨-, hfield⟩, hrest⟩ :
          (f.name ∉ msgNames rest ∧
            wtField f (.many (.vcons v vs)) = true) ∧ wtMsg rest = true := by
        simpa [wtMsg, Bool.and_eq_true, Bool.not_eq_true'] using h
      obtain ⟨-, hwtl⟩ : f.repeated = true ∧
          wtVList f.kind (.vcons v vs) = true := by
        simpa [wtField, Bool.and_eq_true] using hfield
      simp [encode_dict_empty_rep, encode_dict_rep, specEncode, retained, VList.isNil,
        specRenderFieldVal, spec_vlist (.vcons v vs) f.kind hwtl,
        spec_msg rest hrest]
end

/-! ### Claim C1: the JSON round trip -/

/-- **C1.** For every well-typed message `m` whose fields do not rely on the
default/empty-collection distinction (`noEmptyLists`), if encoding succeeds
(which also establishes `m` is initialized) then decoding the encoding with
`m`'s own type yields `m` exactly; and in particular the bytes round trip
`b64decode (b64encode bs) = bs` is exact for arbitrary byte content,
including zero bytes and non-UTF8 sequences. -/
theorem json_roundtrip :
    (∀ (m : Msg) (w : Wire), wtMsg m = true → noEmptyLists m = true →
      encode_message m = .ok w → decode_message (descrOf m) w = .ok m) ∧
    (∀ bs : List Nat, (∀ b ∈ bs, b < 256) →
      b64decode (b64encode bs) = some bs) := by
  refine ⟨?_, b64decode_b64encode⟩
  intro m w hwt hne hw
  have hinit : check_initialized m = true := by
    by_cases hc : check_initialized m = true
    · exact hc
    · simp [encode_message, hc] at hw
  have hw' : w = .json (.jobj (encode_dict m)) := by
    simp only [encode_message, hinit, if_true] at hw
    exact (Except.ok.injEq _ _ ▸ hw).symm
  subst hw'
  have hd := rt_msg m (by simp [hwt, hne])
  simp [decode_message, decode_dictionary, hd, hinit]

def rtEnum : List (String × Int) := [("RED", 1), ("GREEN", 2)]

def rtChildDescr : MsgDescr := .dcons (.mk "flag" .kbool false true) .dnil

def rtChild : Msg :=
  .mcons (.mk "flag" .kbool false true) (.one (.vbool true)) .mnil

/-- A concrete message exercising every field kind: required int, scalar and
repeated bytes with zero bytes and non-UTF8 content, enum, nested message,
repeated string, float. -/
def rtMsgEx : Msg :=
  .mcons (.mk "n" .kint false true) (.one (.vint 42))
  (.mcons (.mk "data" .kbytes false false) (.one (.vbytes [0, 255, 254, 10]))
  (.mcons (.mk "blobs" .kbytes true false)
      (.many (.vcons (.vbytes [0]) (.vcons (.vbytes [1, 2, 3]) .vnil)))
  (.mcons (.mk "color" (.kenum rtEnum) false false)
      (.one (.venum rtEnum 2))
  (.mcons (.mk "child" (.kmsg rtChildDescr) false false)
      (.one (.vmsg rtChild))
  (.mcons (.mk "tags" .kstr true false)
      (.many (.vcons (.vstr "a") (.vcons (.vstr "") .vnil)))
  (.mcons (.mk "score" .kfloat false false)
      (.one (.vfloat ((3 : Rat) / 2)))
   .mnil))))))

theorem json_roundtrip_witness :
    wtMsg rtMsgEx = true ∧ noEmptyLists rtMsgEx = true ∧
      encode_message rtMsgEx = .ok (.json (.jobj (encode_dict rtMsgEx))) ∧
      decode_message (descrOf rtMsgEx) (.json (.jobj (encode_dict rtMsgEx))) =
        .ok rtMsgEx := by
  have hwt : wtMsg rtMsgEx = true := by decide
  have hne : noEmptyLists rtMsgEx = true := by decide
  have henc : encode_message rtMsgEx =
      .ok (.json (.jobj (encode_dict rtMsgEx))) := by
    simp [encode_message, show check_initialized rtMsgEx = true by decide]
  exact ⟨hwt, hne, henc, json_roundtrip.1 rtMsgEx _ hwt hne henc⟩

/-! ### Claim C4: unknown keys are silently discarded -/

/-- **C4.** Decoding a key that names no field of the message type succeeds
and leaves the message unchanged, whatever JSON value — including `null` —
the key carries (the `null` path goes through the schema's `reset`, which is
modelled from the spec as a no-op for unknown names). -/
theorem unknown_keys_discarded (m : Msg) (k : String)
    (h : k ∉ msgNames m) :
    (∀ v : JValue, decodePair (descrOf m) m k v = .ok m) ∧
    (∀ (v : JValue) (rest : List (String × JValue)),
      decodePairs (descrOf m) m ((k, v) :: rest) =
        decodePairs (descrOf m) m rest) := by
  have hd : k ∉ descrNames (descrOf m) := by
    rwa [← msgNames_eq_descrNames]
  have hf : field_by_name (descrOf m) k = none :=
    field_by_name_none_of_not_mem hd
  have part1 : ∀ v : JValue, decodePair (descrOf m) m k v = .ok m := by
    intro v
    by_cases hv : v.isNull = true
    · rw [decodePair_null _ _ _ hv, resetField_of_not_mem hd]
    · exact decodePair_lookup_none m (by simpa using hv) hf
  exact ⟨part1, fun v rest => by rw [decodePairs_cons, part1 v, okBind]⟩

def c4Msg : Msg :=
  .mcons (.mk "a" .kint false false) (.one (.vint 1)) .mnil

theorem unknown_keys_discarded_witness :
    decodePair (descrOf c4Msg) c4Msg "zzz" .jnull = .ok c4Msg ∧
    decodePair (descrOf c4Msg) c4Msg "zzz" (.jstr "x") = .ok c4Msg ∧
    decodePairs (descrOf c4Msg) c4Msg [("zzz", .jbool true)] =
      decodePairs (descrOf c4Msg) c4Msg [] := by
  have h : "zzz" ∉ msgNames c4Msg := by decide
  obtain ⟨p1, p2⟩ := unknown_keys_discarded c4Msg "zzz" h
  exact ⟨p1 .jnull, p1 (.jstr "x"), p2 (.jbool true) []⟩

/-! ### Claim C6: the encoder's output shape -/

/-- **C6.** Encoding an initialized message emits a single JSON object; its
keys are exactly the names of the fields whose assigned value is neither
unset nor an empty sequence; and each retained field renders per the spec's
wire format (enum values as their symbolic name string, bytes as base64
strings — arrays thereof when repeated —, nested messages as nested JSON
objects), stated as equality with the spec-side encoder `specEncode`. -/
theorem encode_wire_format (m : Msg) (hwt : wtMsg m = true)
    (hinit : check_initialized m = true) :
    encode_message m = .ok (.json (.jobj (encode_dict m))) ∧
    encode_dict m = specEncode m ∧
    (encode_dict m).map Prod.fst = retainedNames m :=
  ⟨by simp [encode_message, hinit], spec_msg m hwt, encode_keys_exact m⟩

/-- A message with an unset field, an assigned-empty repeated field, an enum,
bytes, and a nested message: the encoded object retains exactly the assigned
non-empty fields. -/
def c6Msg : Msg :=
  .mcons (.mk "n" .kint false false) .unset
  (.mcons (.mk "xs" .kint true false) (.many .vnil)
  (.mcons (.mk "color" (.kenum rtEnum) false false) (.one (.venum rtEnum 1))
  (.mcons (.mk "data" .kbytes false false) (.one (.vbytes [0, 200]))
  (.mcons (.mk "child" (.kmsg rtChildDescr) false false)
      (.one (.vmsg rtChild))
   .mnil))))

theorem encode_wire_format_witness :
    encode_message c6Msg = .ok (.json (.jobj (encode_dict c6Msg))) ∧
      encode_dict c6Msg = specEncode c6Msg ∧
      (encode_dict c6Msg).map Prod.fst = ["color", "data", "child"] := by
  obtain ⟨h1, h2, h3⟩ := encode_wire_format c6Msg (by decide) (by decide)
  refine ⟨h1, h2, ?_⟩
  rw [h3]
  decide

/-! ### Claim C7: list normalization and assignment -/

/-- **C7.** When a JSON array is supplied for a known field: a repeated field
receives the entire converted list, replacing any previous value of that
field; a non-repeated field receives only the last element of the list; an
empty array leaves the message unchanged. -/
theorem array_assignment (d : MsgDescr) (m : Msg) (k : String)
    (f : FieldDescr) (hf : field_by_name d k = some f) :
    (∀ (items : List JValue) (convs : List Conv) (vals : List Value),
      items ≠ [] → convertItems f.kind items = .ok convs →
      f.repeated = true → assignList f.kind convs = some vals →
      decodePair d m k (.jarr items) =
        .ok (setFirst m k (.many (VList.ofList vals)))) ∧
    (∀ (items : List JValue) (convs : List Conv) (c : Conv) (v' : Value),
      items ≠ [] → convertItems f.kind items = .ok convs →
      f.repeated = false → convs.getLast? = some c →
      assignOne f.kind c = some v' →
      decodePair d m k (.jarr items) = .ok (setFirst m k (.one v'))) ∧
    decodePair d m k (.jarr []) = .ok m := by
  refine ⟨?_, ?_, ?_⟩
  · intro items convs vals hne hconv hrep hassign
    rw [decodePair_lookup_some m (by simp [JValue.isNull]) hf]
    rw [show normItems (.jarr items) = items from rfl]
    rw [show items.isEmpty = false from by
      cases items with
      | nil => exact absurd rfl hne
      | cons a l => rfl]
    simp [hconv, hrep, hassign]
  · intro items convs c v' hne hconv hrep hlast hassign
    rw [decodePair_lookup_some m (by simp [JValue.isNull]) hf]
    rw [show normItems (.jarr items) = items from rfl]
    rw [show items.isEmpty = false from by
      cases items with
      | nil => exact absurd rfl hne
      | cons a l => rfl]
    simp [hconv, hrep, hlast, hassign]
  · rw [decodePair_lookup_some m (by simp [JValue.isNull]) hf]
    simp [normItems]

def c7Descr : MsgDescr :=
  .dcons (.mk "xs" .kint true false)
    (.dcons (.mk "x" .kint false false) .dnil)

def c7Msg : Msg :=
  .mcons (.mk "xs" .kint true false) (.many (.vcons (.vint 99) .vnil))
    (.mcons (.mk "x" .kint false false) (.one (.vint 5)) .mnil)

theorem array_assignment_witness :
    decodePair c7Descr c7Msg "xs" (.jarr [.jint 1, .jint 2]) =
      .ok (setFirst c7Msg "xs"
        (.many (VList.ofList [.vint 1, .vint 2]))) ∧
    decodePair c7Descr c7Msg "x" (.jarr [.jint 7, .jint 9]) =
      .ok (setFirst c7Msg "x" (.one (.vint 9))) ∧
    decodePair c7Descr c7Msg "xs" (.jarr []) = .ok c7Msg := by
  have h1 := (array_assignment c7Descr c7Msg "xs"
    (.mk "xs" .kint true false) (by simp [c7Descr, field_by_name, FieldDescr.name])).1
    [.jint 1, .jint 2] [.raw (.jint 1), .raw (.jint 2)] [.vint 1, .vint 2]
    (by simp)
    (by simp [convertItems_cons, convertItems_nil, convertItem,
      FieldDescr.kind])
    (by decide) (by simp [assignList, assignOne, FieldDescr.kind])
  have h2 := (array_assignment c7Descr c7Msg "x"
    (.mk "x" .kint false false) (by simp [c7Descr, field_by_name, FieldDescr.name])).2.1
    [.jint 7, .jint 9] [.raw (.jint 7), .raw (.jint 9)] (.raw (.jint 9))
    (.vint 9)
    (by simp)
    (by simp [convertItems_cons, convertItems_nil, convertItem,
      FieldDescr.kind])
    (by decide) (by simp) (by simp [assignOne, FieldDescr.kind])
  have h3 := (array_assignment c7Descr c7Msg "xs"
    (.mk "xs" .kint true false) (by simp [c7Descr, field_by_name, FieldDescr.name])).2.2
  exact ⟨by simpa [FieldDescr.kind] using h1,
    by simpa [FieldDescr.kind] using h2, h3⟩

/-! ## The WSGI dispatcher (`protorpc/wsgi/service.py`)

The service instance construction and the optional `initialize_request_state`
hook only build a per-request state snapshot handed to the instance; they do
not affect the response computation and are not modelled.  Logging is a side
effect and is likewise not modelled. -/

/-- Modelled from the spec: `remote.RpcState` is not under `src/`.  The spec
names the four states the dispatcher uses; the numbers are arbitrary. -/
def rpcStateVariants : List (String × Int) :=
  [("METHOD_NOT_FOUND_ERROR", 0), ("REQUEST_ERROR", 1),
   ("APPLICATION_ERROR", 2), ("SERVER_ERROR", 3)]

def stMETHOD_NOT_FOUND_ERROR : Int := 0

def stREQUEST_ERROR : Int := 1

def stAPPLICATION_ERROR : Int := 2

def stSERVER_ERROR : Int := 3

/-- Modelled from the spec: `remote.RpcStatus` is not under `src/`.  Per the
spec it is a message type with fields `{state: enum, error_message: string,
error_name: string}`, serialized through the same codec as any application
message. -/
def rpcStatusDescr : MsgDescr :=
  .dcons (.mk "state" (.kenum rpcStateVariants) false false)
  (.dcons (.mk "error_message" .kstr false false)
  (.dcons (.mk "error_name" .kstr false false) .dnil))

/-- `remote.RpcStatus(state=..., error_message=..., error_name=...)`;
`error_name=None` leaves the field unset. -/
def mkRpcStatus (state : Int) (message : String) (errorName : Option String) :
    Msg :=
  .mcons (.mk "state" (.kenum rpcStateVariants) false false)
      (.one (.venum rpcStateVariants state))
  (.mcons (.mk "error_message" .kstr false false) (.one (.vstr message))
  (.mcons (.mk "error_name" .kstr false false)
      (match errorName with | some n => .one (.vstr n) | none => .unset)
   .mnil))

/-- Modelled from the spec: a protocol entry is a (name, codec, default
content-type) triple.  The codec is its paired encode/decode function set. -/
structure Protocol where
  name : String
  defaultContentType : String
  encodeMessage : Msg → Except PyErr Wire
  decodeMessage : MsgDescr → Wire → Except PyErr Msg

/-- The protojson protocol registration: the JSON codec of this repository
under content type `application/json`. -/
def protojsonProtocol : Protocol :=
  ⟨"protojson", "application/json", encode_message, decode_message⟩

/-- Modelled from the spec: `remote.Protocols.lookup_by_content_type` is not
under `src/`; per the spec, lookup is an exact content-type match over the
registered entries. -/
def lookup_by_content_type (ps : List Protocol) (ct : String) :
    Option Protocol :=
  ps.find? (fun p => p.defaultContentType == ct)

/-- The behavior of invoking a service method on a decoded request: a
response message, an `ApplicationError` (an expected, typed business-logic
failure carrying a message and an optional error name), or any other uncaught
exception, carrying its class name and text. -/
inductive Outcome where
  | success (resp : Msg)
  | appError (message : String) (errorName : Option String)
  | otherError (exClass : String) (exText : String)

/-- One remote method: its declared request message type and its behavior. -/
structure Method where
  requestType : MsgDescr
  impl : Msg → Outcome

/-- A service as the dispatcher sees it: the (literal) service path the path
pattern is built from, `definition_name()`, and the registered remote
methods. -/
structure Service where
  servicePath : String
  definitionName : String
  remoteMethods : List (String × Method)

/-- The WSGI environment fields the dispatcher reads.  `contentLength` is the
`CONTENT_LENGTH` header parsed as a number; `body` is the content of
`wsgi.input`. -/
structure Environ where
  pathInfo : String
  requestMethod : String
  contentType : Option String
  httpContentType : Option String
  contentLength : Option Nat
  body : Wire

/-- A response body: either literal text handed to the error handler, or an
encoded wire payload produced by a codec. -/
inductive Body where
  | plain (s : String)
  | wire (w : Wire)

/-- Whether a body is a codec-encoded wire payload. -/
def Body.isEncoded : Body → Bool
  | .plain _ => false
  | .wire _ => true

structure Response where
  statusCode : Nat
  contentType : String
  body : Body

/-- `httplib.responses` for the status codes the dispatcher uses. -/
def httpResponses : Nat → String
  | 200 => "OK"
  | 400 => "Bad Request"
  | 404 => "Not Found"
  | 405 => "Method Not Allowed"
  | 415 => "Unsupported Media Type"
  | 500 => "Internal Server Error"
  | _ => ""

/-- Modelled from the spec: `wsgi_util.error` is not under `src/`.  It builds
a static error application for a status code with an optional explicit body
and content type; absent those, the body is the plain status text.  The
default content type is a fixed constant independent of the request. -/
def wsgiError (statusCode : Nat) (statusText : String)
    (contentType : Option String) (content : Option Body) : Response :=
  ⟨statusCode, contentType.getD "text/plain; charset=utf-8",
    content.getD (.plain statusText)⟩

/-- `_HTTP_NOT_FOUND`, created at module level before any request exists. -/
def httpNotFound : Response := wsgiError 404 (httpResponses 404) none none

/-- `_HTTP_BAD_REQUEST`, created at module level. -/
def httpBadRequest : Response := wsgiError 400 (httpResponses 400) none none

/-- `_HTTP_UNSUPPORTED_MEDIA_TYPE`, created at module level. -/
def httpUnsupportedMediaType : Response :=
  wsgiError 415 (httpResponses 415) none none

/-- `util.PROTORPC_PROJECT_URL` (from `protorpc/util.py`, not under `src/`;
the value is immaterial to every claim). -/
def PROTORPC_PROJECT_URL : String := "http://code.google.com/p/google-protorpc"

/-- The 405 body: the `%`-format string of the source filled with its actual
argument tuple `(PROTORPC_PROJECT_URL, service_path, method_name,
definition_name)`, in that order. -/
def methodNotAllowedContent (servicePath methodName definitionName : String) :
    String :=
  PROTORPC_PROJECT_URL ++ "." ++ servicePath ++
    " is a ProtoRPC method.\n\nService " ++ methodName ++
    "\n\nMore about ProtoRPC: " ++ definitionName ++ "\n"

/-- Strip an expected prefix from a character list, returning the remainder
(regular-expression matching of a literal prefix). -/
def dropPrefixChars : List Char → List Char → Option (List Char)
  | [], l => some l
  | _ :: _, [] => none
  | p :: ps, c :: cs => if p = c then dropPrefixChars ps cs else none

/-- The compiled request-path pattern `^(<service_path>)\.([^?]+)$`, for a
literal (regex-free) service path: the path is the service path, a dot, and a
non-empty method segment containing no `?`. -/
def pathMatch (servicePath pathInfo : String) : Option (String × String) :=
  match dropPrefixChars (servicePath.data ++ ['.']) pathInfo.data with
  | none => none
  | some rest =>
      if rest ≠ [] ∧ ¬rest.contains '?' then
        some (servicePath, String.mk rest)
      else none

/-- A header value counts as present only if non-empty (Python falsiness). -/
def presentHeader : Option String → Option String
  | some s => if s.data.isEmpty then none else some s
  | none => none

/-- `CONTENT_TYPE`, falling back to the `HTTP_CONTENT_TYPE` override. -/
def getContentTypeHeader (env : Environ) : Option String :=
  match presentHeader env.contentType with
  | some s => some s
  | none => presentHeader env.httpContentType

/-- The characters before the first `;`. -/
def takeUntilSemi : List Char → List Char
  | [] => []
  | c :: rest => if c = ';' then [] else c :: takeUntilSemi rest

/-- Python `str.strip` whitespace test, for the characters that occur in
content-type headers. -/
def isSpaceChar (c : Char) : Bool := c = ' ' || c = '\t'

def dropLeadingSpaces : List Char → List Char
  | [] => []
  | c :: rest => if isSpaceChar c then dropLeadingSpaces rest else c :: rest

def stripChars (l : List Char) : List Char :=
  (dropLeadingSpaces (dropLeadingSpaces l.reverse).reverse)

/-- Modelled from the Python stdlib `cgi.parse_header`: the main value,
stripped, before any `;`-separated parameters. -/
def parseHeaderValue (s : String) : String :=
  String.mk (stripChars (takeUntilSemi s.data))

/-- `send_rpc_error`: encode an `RpcStatus` with the negotiated protocol and
respond with the protocol's default content type.  A codec failure here would
propagate (the handler is invoked outside any `except`). -/
def send_rpc_error (p : Protocol) (statusCode : Nat) (state : Int)
    (message : String) (errorName : Option String) : Except PyErr Response := do
  let w ← p.encodeMessage (mkRpcStatus state message errorName)
  .ok (wsgiError statusCode (httpResponses statusCode)
    (some p.defaultContentType) (some (.wire w)))

/-- `int(environ.get('CONTENT_LENGTH', '0'))` then
`environ['wsgi.input'].read(content_length)`: a missing or zero header reads
the empty string whatever the body holds. -/
def readBody (env : Environ) : Wire :=
  match env.contentLength with
  | none => .empty
  | some 0 => .empty
  | some _ => env.body

/-- The invocation block: call the method, encode the response on success
(HTTP 200 under the request's parsed content type); an `ApplicationError`
becomes a structured 400; any other exception — from the method or from
encoding the response — is logged and becomes the fixed generic structured
500. -/
def invokeMethod (p : Protocol) (ct : String) (meth : Method)
    (request : Msg) : Except PyErr Response :=
  match meth.impl request with
  | .success resp =>
      match p.encodeMessage resp with
      | .ok w => .ok ⟨200, ct, .wire w⟩
      | .error _ =>
          send_rpc_error p 500 stSERVER_ERROR "Internal Server Error" none
  | .appError msg name => send_rpc_error p 400 stAPPLICATION_ERROR msg name
  | .otherError _ _ =>
      send_rpc_error p 500 stSERVER_ERROR "Internal Server Error" none

/-- `protorpc_service_app`: the request handler.  `Except.error` models an
exception propagating out of the WSGI application uncaught (note the request
decode catches only `ValidationError` and `DecodeError`). -/
def protorpc_service_app (protocols : List Protocol) (svc : Service)
    (env : Environ) : Except PyErr Response :=
  match pathMatch svc.servicePath env.pathInfo with
  | none => .ok httpNotFound
  | some (servicePath, methodName) =>
      match getContentTypeHeader env with
      | none => .ok httpBadRequest
      | some rawCT =>
          let contentType := parseHeaderValue rawCT
          if env.requestMethod ≠ "POST" then
            .ok (wsgiError 405 (httpResponses 405)
              (some "text/plain; charset=utf-8")
              (some (.plain (methodNotAllowedContent servicePath methodName
                svc.definitionName))))
          else
            match lookup_by_content_type protocols contentType with
            | none => .ok httpUnsupportedMediaType
            | some protocol =>
                match (svc.remoteMethods.find?
                    (fun kv => kv.1 == methodName)).map Prod.snd with
                | none =>
                    send_rpc_error protocol 400 stMETHOD_NOT_FOUND_ERROR
                      ("Unrecognized RPC method: " ++ methodName) none
                | some meth =>
                    match protocol.decodeMessage meth.requestType
                        (readBody env) with
                    | .ok request =>
                        invokeMethod protocol contentType meth request
                    | .error (.validationError msg) =>
                        send_rpc_error protocol 400 stREQUEST_ERROR
                          ("Error parsing ProtoRPC request (Unable to parse request content: "
                            ++ msg ++ ")") none
                    | .error (.decodeError msg) =>
                        send_rpc_error protocol 400 stREQUEST_ERROR
                          ("Error parsing ProtoRPC request (Unable to parse request content: "
                            ++ msg ++ ")") none
                    | .error e => .error e

/-! ### Inversion lemmas for the dispatcher -/

theorem lookup_default_ct {ps : List Protocol} {ct : String} {p : Protocol}
    (h : lookup_by_content_type ps ct = some p) :
    p.defaultContentType = ct := by
  unfold lookup_by_content_type at h
  have := List.find?_some h
  simpa using this

theorem send_rpc_error_ok {p : Protocol} {code : Nat} {st : Int}
    {msg : String} {en : Option String} {r : Response}
    (h : send_rpc_error p code st msg en = .ok r) :
    r.statusCode = code ∧ r.contentType = p.defaultContentType ∧
      ∃ w, p.encodeMessage (mkRpcStatus st msg en) = .ok w ∧
        r.body = .wire w := by
  unfold send_rpc_error at h
  cases he : p.encodeMessage (mkRpcStatus st msg en) with
  | error e => rw [he] at h; exact absurd h (by simp)
  | ok w =>
      rw [he] at h
      simp only [okBind, Except.ok.injEq] at h
      subst h
      exact ⟨rfl, rfl, w, rfl, rfl⟩

theorem invokeMethod_ok {p : Protocol} {ct : String} {meth : Method}
    {req : Msg} {r : Response}
    (h : invokeMethod p ct meth req = .ok r) :
    (r.contentType = ct ∨ r.contentType = p.defaultContentType) ∧
      ∃ mOut w, p.encodeMessage mOut = .ok w ∧ r.body = .wire w := by
  unfold invokeMethod at h
  cases himpl : meth.impl req with
  | success resp =>
      simp only [himpl] at h
      cases he : p.encodeMessage resp with
      | ok w =>
          simp only [he, Except.ok.injEq] at h
          subst h
          exact ⟨Or.inl rfl, resp, w, he, rfl⟩
      | error e =>
          simp only [he] at h
          obtain ⟨-, hc, w, hw, hb⟩ := send_rpc_error_ok h
          exact ⟨Or.inr hc, _, w, hw, hb⟩
  | appError msg name =>
      simp only [himpl] at h
      obtain ⟨-, hc, w, hw, hb⟩ := send_rpc_error_ok h
      exact ⟨Or.inr hc, _, w, hw, hb⟩
  | otherError c t =>
      simp only [himpl] at h
      obtain ⟨-, hc, w, hw, hb⟩ := send_rpc_error_ok h
      exact ⟨Or.inr hc, _, w, hw, hb⟩

theorem invokeMethod_status {p : Protocol} {ct : String} {meth : Method}
    {req : Msg} {r : Response}
    (h : invokeMethod p ct meth req = .ok r) (hne : r.statusCode ≠ 200) :
    ∃ st emsg en w,
      (st = stMETHOD_NOT_FOUND_ERROR ∨ st = stREQUEST_ERROR ∨
        st = stAPPLICATION_ERROR ∨ st = stSERVER_ERROR) ∧
      p.encodeMessage (mkRpcStatus st emsg en) = .ok w ∧
      r.body = .wire w := by
  unfold invokeMethod at h
  cases himpl : meth.impl req with
  | success resp =>
      simp only [himpl] at h
      cases he : p.encodeMessage resp with
      | ok w =>
          simp only [he, Except.ok.injEq] at h
          subst h
          exact absurd rfl hne
      | error e =>
          simp only [he] at h
          obtain ⟨-, -, w, hw, hb⟩ := send_rpc_error_ok h
          exact ⟨stSERVER_ERROR, _, _, w, by simp, hw, hb⟩
  | appError msg name =>
      simp only [himpl] at h
      obtain ⟨-, -, w, hw, hb⟩ := send_rpc_error_ok h
      exact ⟨stAPPLICATION_ERROR, _, _, w, by simp, hw, hb⟩
  | otherError c t =>
      simp only [himpl] at h
      obtain ⟨-, -, w, hw, hb⟩ := send_rpc_error_ok h
      exact ⟨stSERVER_ERROR, _, _, w, by simp, hw, hb⟩

/-- Whether a message type declares any required field (at the top level). -/
def hasRequiredFields : MsgDescr → Bool
  | .dnil => false
  | .dcons f rest => f.required || hasRequiredFields rest

theorem check_initialized_fresh_false : (d : MsgDescr) →
    hasRequiredFields d = true → check_initialized (fresh d) = false
  | .dcons f rest, h => by
      rcases (by simpa [hasRequiredFields] using h :
          f.required = true ∨ hasRequiredFields rest = true) with hr | hr
      · simp [fresh, check_initialized, checkSlot, hr]
      · simp [fresh, check_initialized, checkSlot,
          check_initialized_fresh_false rest hr]

/-! ### Claim C5: the dispatcher's decision order -/

/-- **C5.** The dispatcher's checks form a linear decision sequence whose
first matching branch is terminal: path mismatch → 404; then missing
Content-Type (and override) header → 400; then any method other than POST →
405; then a content type with no registered codec → 415.  In particular a GET
request without a Content-Type header gets 400, not 405 (the witness
instantiates the second clause with a GET request). -/
theorem dispatch_decision_order (protocols : List Protocol) (svc : Service)
    (env : Environ) :
    (pathMatch svc.servicePath env.pathInfo = none →
      protorpc_service_app protocols svc env = .ok httpNotFound ∧
        httpNotFound.statusCode = 404) ∧
    (∀ sp mn, pathMatch svc.servicePath env.pathInfo = some (sp, mn) →
      getContentTypeHeader env = none →
      protorpc_service_app protocols svc env = .ok httpBadRequest ∧
        httpBadRequest.statusCode = 400) ∧
    (∀ sp mn rawCT, pathMatch svc.servicePath env.pathInfo = some (sp, mn) →
      getContentTypeHeader env = some rawCT → env.requestMethod ≠ "POST" →
      ∃ r, protorpc_service_app protocols svc env = .ok r ∧
        r.statusCode = 405) ∧
    (∀ sp mn rawCT, pathMatch svc.servicePath env.pathInfo = some (sp, mn) →
      getContentTypeHeader env = some rawCT → env.requestMethod = "POST" →
      lookup_by_content_type protocols (parseHeaderValue rawCT) = none →
      protorpc_service_app protocols svc env = .ok httpUnsupportedMediaType ∧
        httpUnsupportedMediaType.statusCode = 415) := by
  refine ⟨?_, ?_, ?_, ?_⟩
  · intro h
    exact ⟨by simp [protorpc_service_app, h], rfl⟩
  · intro sp mn hp hct
    exact ⟨by simp [protorpc_service_app, hp, hct], rfl⟩
  · intro sp mn rawCT hp hct hm
    exact ⟨wsgiError 405 (httpResponses 405)
      (some "text/plain; charset=utf-8")
      (some (.plain (methodNotAllowedContent sp mn svc.definitionName))),
      by simp [protorpc_service_app, hp, hct, hm], rfl⟩
  · intro sp mn rawCT hp hct hm hl
    exact ⟨by simp [protorpc_service_app, hp, hct, hm, hl], rfl⟩

def c5Svc : Service := ⟨"/svc", "SvcDef", []⟩

theorem dispatch_decision_order_witness :
    protorpc_service_app [protojsonProtocol] c5Svc
      ⟨"/nope", "POST", some "application/json", none, none, .empty⟩ =
      .ok httpNotFound ∧
    protorpc_service_app [protojsonProtocol] c5Svc
      ⟨"/svc.m", "GET", none, none, none, .empty⟩ = .ok httpBadRequest ∧
    (∃ r, protorpc_service_app [protojsonProtocol] c5Svc
      ⟨"/svc.m", "GET", some "application/json", none, none, .empty⟩ =
        .ok r ∧ r.statusCode = 405) ∧
    protorpc_service_app [protojsonProtocol] c5Svc
      ⟨"/svc.m", "POST", some "text/weird", none, none, .empty⟩ =
      .ok httpUnsupportedMediaType := by
  refine ⟨?_, ?_, ?_, ?_⟩
  · exact ((dispatch_decision_order [protojsonProtocol] c5Svc _).1
      (by decide)).1
  · exact ((dispatch_decision_order [protojsonProtocol] c5Svc _).2.1
      "/svc" "m" (by decide) (by decide)).1
  · exact (dispatch_decision_order [protojsonProtocol] c5Svc _).2.2.1
      "/svc" "m" "application/json" (by decide) (by decide) (by decide)
  · exact ((dispatch_decision_order [protojsonProtocol] c5Svc _).2.2.2
      "/svc" "m" "text/weird" (by decide) (by decide) (by decide)
      (by rfl)).1

/-! ### Claim C9: the 405 response body -/

/-- **C9.** A request to a matching `<service-path>.<method-name>` path that
carries a Content-Type header but uses a method other than POST gets HTTP 405
with a plain-text informational body that contains the service path, the
method name, and the service's definition name as substrings (the source's
`%`-format fills its placeholders with the arguments in a scrambled order,
but all three names appear in the body). -/
theorem method_not_allowed_body (protocols : List Protocol) (svc : Service)
    (env : Environ) (sp mn rawCT : String)
    (hp : pathMatch svc.servicePath env.pathInfo = some (sp, mn))
    (hct : getContentTypeHeader env = some rawCT)
    (hm : env.requestMethod ≠ "POST") :
    protorpc_service_app protocols svc env = .ok
      ⟨405, "text/plain; charset=utf-8",
        .plain (methodNotAllowedContent sp mn svc.definitionName)⟩ ∧
    (∃ a b, methodNotAllowedContent sp mn svc.definitionName =
      a ++ (sp ++ b)) ∧
    (∃ a b, methodNotAllowedContent sp mn svc.definitionName =
      a ++ (mn ++ b)) ∧
    (∃ a b, methodNotAllowedContent sp mn svc.definitionName =
      a ++ (svc.definitionName ++ b)) := by
  refine ⟨?_, ?_, ?_, ?_⟩
  · simp [protorpc_service_app, hp, hct, hm, wsgiError]
  · exact ⟨PROTORPC_PROJECT_URL ++ ".",
      " is a ProtoRPC method.\n\nService " ++ mn ++
        "\n\nMore about ProtoRPC: " ++ svc.definitionName ++ "\n",
      by simp [methodNotAllowedContent, String.append_assoc]⟩
  · exact ⟨PROTORPC_PROJECT_URL ++ "." ++ sp ++
        " is a ProtoRPC method.\n\nService ",
      "\n\nMore about ProtoRPC: " ++ svc.definitionName ++ "\n",
      by simp [methodNotAllowedContent, String.append_assoc]⟩
  · exact ⟨PROTORPC_PROJECT_URL ++ "." ++ sp ++
        " is a ProtoRPC method.\n\nService " ++ mn ++
        "\n\nMore about ProtoRPC: ", "\n",
      by simp [methodNotAllowedContent, String.append_assoc]⟩

theorem method_not_allowed_body_witness :
    protorpc_service_app [protojsonProtocol] c5Svc
      ⟨"/svc.mth", "GET", some "application/json", none, none, .empty⟩ =
      .ok ⟨405, "text/plain; charset=utf-8",
        .plain (methodNotAllowedContent "/svc" "mth" "SvcDef")⟩ ∧
    (∃ a b, methodNotAllowedContent "/svc" "mth" "SvcDef" =
      a ++ ("mth" ++ b)) := by
  obtain ⟨h1, -, h3, -⟩ := method_not_allowed_body [protojsonProtocol] c5Svc
    ⟨"/svc.mth", "GET", some "application/json", none, none, .empty⟩
    "/svc" "mth" "application/json" (by decide) (by decide) (by decide)
  exact ⟨h1, h3⟩

/-! ### Claim C2: codec symmetry after negotiation -/

/-- **C2.** For a request that reaches codec negotiation (path matched,
Content-Type present, POST, codec found), every response the application
produces — success or structured RPC error — carries the request's negotiated
content type and a body encoded with the negotiated codec.  (With the
registry spec-modelled as an exact match over default content types,
`send_rpc_error`'s use of `protocol.default_content_type` coincides with the
request's parsed content type.) -/
theorem codec_symmetry (protocols : List Protocol) (svc : Service)
    (env : Environ) (sp mn rawCT : String) (p : Protocol)
    (hp : pathMatch svc.servicePath env.pathInfo = some (sp, mn))
    (hct : getContentTypeHeader env = some rawCT)
    (hm : env.requestMethod = "POST")
    (hl : lookup_by_content_type protocols (parseHeaderValue rawCT) =
      some p) :
    p.defaultContentType = parseHeaderValue rawCT ∧
    ∀ r, protorpc_service_app protocols svc env = .ok r →
      r.contentType = parseHeaderValue rawCT ∧
      ∃ mOut w, p.encodeMessage mOut = .ok w ∧ r.body = .wire w := by
  have hdef := lookup_default_ct hl
  refine ⟨hdef, ?_⟩
  intro r hr
  simp only [protorpc_service_app, hp, hct, hm, hl, ne_eq,
    not_true_eq_false, Bool.false_eq_true, if_false] at hr
  rcases hfind : (svc.remoteMethods.find? (fun kv => kv.1 == mn)).map
      Prod.snd with - | meth
  · simp only [hfind] at hr
    obtain ⟨-, hc, w, hw, hb⟩ := send_rpc_error_ok hr
    exact ⟨by rw [hc, hdef], _, w, hw, hb⟩
  · simp only [hfind] at hr
    rcases hdec : p.decodeMessage meth.requestType (readBody env) with e | req
    · simp only [hdec] at hr
      cases e with
      | validationError msg =>
          obtain ⟨-, hc, w, hw, hb⟩ := send_rpc_error_ok hr
          exact ⟨by rw [hc, hdef], _, w, hw, hb⟩
      | decodeError msg =>
          obtain ⟨-, hc, w, hw, hb⟩ := send_rpc_error_ok hr
          exact ⟨by rw [hc, hdef], _, w, hw, hb⟩
      | valueError msg => exact absurd hr (by simp)
      | typeError msg => exact absurd hr (by simp)
      | attributeError msg => exact absurd hr (by simp)
    · simp only [hdec] at hr
      obtain ⟨hc, mOut, w, hw, hb⟩ := invokeMethod_ok hr
      rcases hc with hc | hc
      · exact ⟨hc, mOut, w, hw, hb⟩
      · exact ⟨by rw [hc, hdef], mOut, w, hw, hb⟩

def c2Svc : Service :=
  ⟨"/svc", "SvcDef", [("m", ⟨.dnil, fun _ => .success .mnil⟩)]⟩

def c2Env : Environ :=
  ⟨"/svc.m", "POST", some "application/json; charset=utf-8", none,
    none, .empty⟩

theorem codec_symmetry_witness :
    protojsonProtocol.defaultContentType =
      parseHeaderValue "application/json; charset=utf-8" ∧
    protorpc_service_app [protojsonProtocol] c2Svc c2Env =
      .ok ⟨200, "application/json", .wire (.json (.jobj []))⟩ ∧
    (⟨200, "application/json",
        .wire (.json (.jobj []))⟩ : Response).contentType =
      parseHeaderValue "application/json; charset=utf-8" ∧
    ∃ mOut w, protojsonProtocol.encodeMessage mOut = .ok w ∧
      (⟨200, "application/json",
        .wire (.json (.jobj []))⟩ : Response).body = .wire w := by
  obtain ⟨h1, h2⟩ := codec_symmetry [protojsonProtocol] c2Svc c2Env
    "/svc" "m" "application/json; charset=utf-8" protojsonProtocol
    (by decide) (by decide) (by decide) (by rfl)
  have happ : protorpc_service_app [protojsonProtocol] c2Svc c2Env =
      .ok ⟨200, "application/json", .wire (.json (.jobj []))⟩ := by rfl
  obtain ⟨h3, h4⟩ := h2 _ happ
  exact ⟨h1, happ, h3, h4⟩

/-! ### Claim C3: which responses carry an encoded RpcStatus body

The claim as stated is false on the code: the 404, missing-Content-Type 400,
405 and 415 responses are built by `wsgi_util.error` — the first three from
handlers created at module import time, before any request exists — and carry
plain bodies, not an `RpcStatus` encoded with the request's negotiated codec
(at 404/400/415 time no codec has even been negotiated).  The counterexample
exhibits the 405 response, whose plain informational body and fixed
`text/plain` content type are explicit in the source. -/

def c3Svc : Service := ⟨"/my/service", "MyService", []⟩

def c3Env : Environ :=
  ⟨"/my/service.mymethod", "GET", some "application/json", none, none,
    .empty⟩

/-- **C3, counterexample.**  A GET request with negotiated-able content type
`application/json` gets a 405 whose body is plain text (not a codec-encoded
payload) and whose content type is `text/plain`, not the request's content
type — contradicting "every non-success response body is an encoded RpcStatus
… encoded with the same negotiated codec". -/
theorem status_payload_counterexample :
    protorpc_service_app [protojsonProtocol] c3Svc c3Env =
      .ok ⟨405, "text/plain; charset=utf-8",
        .plain (methodNotAllowedContent "/my/service" "mymethod"
          "MyService")⟩ ∧
    Body.isEncoded (.plain (methodNotAllowedContent "/my/service" "mymethod"
      "MyService")) = false ∧
    ("text/plain; charset=utf-8" = "application/json") = False := by
  refine ⟨by rfl, rfl, ?_⟩
  simp

/-- **C3, amended.**  Only the structured RPC error responses produced after
codec negotiation (method-not-found, request-error, application-error,
server-error) have bodies that are the negotiated codec's encoding of an
`RpcStatus` with fields `{state, error_message, optional error_name}`; the
404, missing-Content-Type 400, 405 and 415 responses instead carry fixed
plain-text bodies not encoded with any codec. -/
theorem error_status_payloads (protocols : List Protocol) (svc : Service)
    (env : Environ) (sp mn rawCT : String) (p : Protocol)
    (hp : pathMatch svc.servicePath env.pathInfo = some (sp, mn))
    (hct : getContentTypeHeader env = some rawCT)
    (hm : env.requestMethod = "POST")
    (hl : lookup_by_content_type protocols (parseHeaderValue rawCT) =
      some p) :
    (∀ r, protorpc_service_app protocols svc env = .ok r →
      r.statusCode ≠ 200 →
      ∃ st emsg en w,
        (st = stMETHOD_NOT_FOUND_ERROR ∨ st = stREQUEST_ERROR ∨
          st = stAPPLICATION_ERROR ∨ st = stSERVER_ERROR) ∧
        p.encodeMessage (mkRpcStatus st emsg en) = .ok w ∧
        r.body = .wire w) ∧
    httpNotFound.body.isEncoded = false ∧
    httpBadRequest.body.isEncoded = false ∧
    httpUnsupportedMediaType.body.isEncoded = false ∧
    (∀ spx mnx dn,
      (Body.plain (methodNotAllowedContent spx mnx dn)).isEncoded = false) := by
  refine ⟨?_, rfl, rfl, rfl, fun _ _ _ => rfl⟩
  intro r hr hne
  simp only [protorpc_service_app, hp, hct, hm, hl, ne_eq,
    not_true_eq_false, Bool.false_eq_true, if_false] at hr
  rcases hfind : (svc.remoteMethods.find? (fun kv => kv.1 == mn)).map
      Prod.snd with - | meth
  · simp only [hfind] at hr
    obtain ⟨-, -, w, hw, hb⟩ := send_rpc_error_ok hr
    exact ⟨stMETHOD_NOT_FOUND_ERROR, _, _, w, by simp, hw, hb⟩
  · simp only [hfind] at hr
    rcases hdec : p.decodeMessage meth.requestType (readBody env) with e | req
    · simp only [hdec] at hr
      cases e with
      | validationError msg =>
          obtain ⟨-, -, w, hw, hb⟩ := send_rpc_error_ok hr
          exact ⟨stREQUEST_ERROR, _, _, w, by simp, hw, hb⟩
      | decodeError msg =>
          obtain ⟨-, -, w, hw, hb⟩ := send_rpc_error_ok hr
          exact ⟨stREQUEST_ERROR, _, _, w, by simp, hw, hb⟩
      | valueError msg => exact absurd hr (by simp)
      | typeError msg => exact absurd hr (by simp)
      | attributeError msg => exact absurd hr (by simp)
    · simp only [hdec] at hr
      exact invokeMethod_status hr hne

def c3bSvc : Service := ⟨"/my/service", "MyService", []⟩

def c3bEnv : Environ :=
  ⟨"/my/service.mymethod", "POST", some "application/json", none, none,
    .empty⟩

theorem error_status_payloads_witness :
    protorpc_service_app [protojsonProtocol] c3bSvc c3bEnv =
      .ok ⟨400, "application/json", .wire (.json (.jobj
        [("state", .jstr "METHOD_NOT_FOUND_ERROR"),
         ("error_message",
          .jstr "Unrecognized RPC method: mymethod")]))⟩ ∧
    (400 : Nat) ≠ 200 ∧
    ∃ st emsg en w,
      (st = stMETHOD_NOT_FOUND_ERROR ∨ st = stREQUEST_ERROR ∨
        st = stAPPLICATION_ERROR ∨ st = stSERVER_ERROR) ∧
      protojsonProtocol.encodeMessage (mkRpcStatus st emsg en) = .ok w ∧
      (Body.wire (.json (.jobj
        [("state", .jstr "METHOD_NOT_FOUND_ERROR"),
         ("error_message",
          .jstr "Unrecognized RPC method: mymethod")]))) = .wire w := by
  have happ : protorpc_service_app [protojsonProtocol] c3bSvc c3bEnv =
      .ok ⟨400, "application/json", .wire (.json (.jobj
        [("state", .jstr "METHOD_NOT_FOUND_ERROR"),
         ("error_message",
          .jstr "Unrecognized RPC method: mymethod")]))⟩ := by rfl
  obtain ⟨part1, -⟩ := error_status_payloads [protojsonProtocol] c3bSvc
    c3bEnv "/my/service" "mymethod" "application/json" protojsonProtocol
    (by decide) (by decide) (by decide) (by rfl)
  obtain ⟨st, emsg, en, w, hmem, hw, hb⟩ := part1 _ happ (by decide)
  exact ⟨happ, by decide, st, emsg, en, w, hmem, hw, hb⟩

/-! ### Claim C8: uncaught exceptions are opaque to the client -/

/-- **C8.** When the invoked method raises any uncaught exception other than
an application error, the response is the structured 500 with state
`SERVER_ERROR` and error message exactly `"Internal Server Error"`; the
response is the same whatever the exception's class and text — two services
whose methods raise different exceptions produce identical responses, so no
exception detail reaches the client.  (The server-side log of the detail is a
side effect outside the embedding.) -/
theorem server_error_opaque (protocols : List Protocol) (svc1 svc2 : Service)
    (env : Environ) (sp mn rawCT : String) (p : Protocol)
    (meth1 meth2 : Method) (req : Msg) (c1 t1 c2 t2 : String)
    (hp1 : pathMatch svc1.servicePath env.pathInfo = some (sp, mn))
    (hp2 : pathMatch svc2.servicePath env.pathInfo = some (sp, mn))
    (hct : getContentTypeHeader env = some rawCT)
    (hm : env.requestMethod = "POST")
    (hl : lookup_by_content_type protocols (parseHeaderValue rawCT) =
      some p)
    (hm1 : (svc1.remoteMethods.find? (fun kv => kv.1 == mn)).map Prod.snd =
      some meth1)
    (hm2 : (svc2.remoteMethods.find? (fun kv => kv.1 == mn)).map Prod.snd =
      some meth2)
    (hreq : meth2.requestType = meth1.requestType)
    (hdec : p.decodeMessage meth1.requestType (readBody env) = .ok req)
    (h1 : meth1.impl req = .otherError c1 t1)
    (h2 : meth2.impl req = .otherError c2 t2) :
    protorpc_service_app protocols svc1 env =
      send_rpc_error p 500 stSERVER_ERROR "Internal Server Error" none ∧
    protorpc_service_app protocols svc1 env =
      protorpc_service_app protocols svc2 env ∧
    (∀ r, protorpc_service_app protocols svc1 env = .ok r →
      r.statusCode = 500 ∧
      ∃ w, p.encodeMessage
        (mkRpcStatus stSERVER_ERROR "Internal Server Error" none) = .ok w ∧
        r.body = .wire w) := by
  have happ1 : protorpc_service_app protocols svc1 env =
      send_rpc_error p 500 stSERVER_ERROR "Internal Server Error" none := by
    simp only [protorpc_service_app, hp1, hct, hm, hl, ne_eq,
      not_true_eq_false, Bool.false_eq_true, if_false, hm1, hdec,
      invokeMethod, h1]
  have happ2 : protorpc_service_app protocols svc2 env =
      send_rpc_error p 500 stSERVER_ERROR "Internal Server Error" none := by
    simp only [protorpc_service_app, hp2, hct, hm, hl, ne_eq,
      not_true_eq_false, Bool.false_eq_true, if_false, hm2, hreq, hdec,
      invokeMethod, h2]
  refine ⟨happ1, by rw [happ1, happ2], ?_⟩
  intro r hr
  rw [happ1] at hr
  obtain ⟨hs, -, w, hw, hb⟩ := send_rpc_error_ok hr
  exact ⟨hs, w, hw, hb⟩

def c8Req : MsgDescr := .dnil

def c8Svc1 : Service :=
  ⟨"/svc", "SvcDef",
    [("m", ⟨c8Req, fun _ => .otherError "RuntimeError" "boom"⟩)]⟩

def c8Svc2 : Service :=
  ⟨"/svc", "SvcDef",
    [("m", ⟨c8Req, fun _ => .otherError "KeyError" "secret detail"⟩)]⟩

def c8Env : Environ :=
  ⟨"/svc.m", "POST", some "application/json", none, none, .empty⟩

theorem server_error_opaque_witness :
    protorpc_service_app [protojsonProtocol] c8Svc1 c8Env =
      send_rpc_error protojsonProtocol 500 stSERVER_ERROR
        "Internal Server Error" none ∧
    protorpc_service_app [protojsonProtocol] c8Svc1 c8Env =
      protorpc_service_app [protojsonProtocol] c8Svc2 c8Env ∧
    protorpc_service_app [protojsonProtocol] c8Svc1 c8Env =
      .ok ⟨500, "application/json", .wire (.json (.jobj
        [("state", .jstr "SERVER_ERROR"),
         ("error_message", .jstr "Internal Server Error")]))⟩ := by
  obtain ⟨w1, w2, -⟩ := server_error_opaque [protojsonProtocol] c8Svc1
    c8Svc2 c8Env "/svc" "m" "application/json" protojsonProtocol
    ⟨c8Req, fun _ => .otherError "RuntimeError" "boom"⟩
    ⟨c8Req, fun _ => .otherError "KeyError" "secret detail"⟩
    (fresh c8Req) "RuntimeError" "boom" "KeyError" "secret detail"
    (by decide) (by decide) (by decide) (by decide) (by rfl)
    (by rfl) (by rfl) (by rfl) (by rfl) (by rfl) (by rfl)
  exact ⟨w1, w2, by rfl⟩

/-! ### Claim C10: a missing Content-Length means an empty request -/

/-- **C10.** With no `Content-Length` header the dispatcher reads zero bytes
and decodes the empty string; `decode_message` returns a fresh empty instance
of the request type without running the initialized check, so no
`ValidationError` (hence no `REQUEST_ERROR`) is produced even when the
request type has required fields — the fresh message is in fact not
initialized — and the method is invoked with that empty request message. -/
theorem empty_body_empty_request (protocols : List Protocol) (svc : Service)
    (env : Environ) (sp mn rawCT : String) (meth : Method)
    (hp : pathMatch svc.servicePath env.pathInfo = some (sp, mn))
    (hct : getContentTypeHeader env = some rawCT)
    (hm : env.requestMethod = "POST")
    (hl : lookup_by_content_type protocols (parseHeaderValue rawCT) =
      some protojsonProtocol)
    (hmeth : (svc.remoteMethods.find? (fun kv => kv.1 == mn)).map Prod.snd =
      some meth)
    (hcl : env.contentLength = none) :
    decode_message meth.requestType .empty = .ok (fresh meth.requestType) ∧
    (hasRequiredFields meth.requestType = true →
      check_initialized (fresh meth.requestType) = false) ∧
    protorpc_service_app protocols svc env =
      invokeMethod protojsonProtocol (parseHeaderValue rawCT) meth
        (fresh meth.requestType) := by
  refine ⟨rfl, check_initialized_fresh_false meth.requestType, ?_⟩
  simp only [protorpc_service_app, hp, hct, hm, hl, ne_eq,
    not_true_eq_false, Bool.false_eq_true, if_false, hmeth, readBody, hcl]
  rfl

def c10Req : MsgDescr := .dcons (.mk "must" .kint false true) .dnil

def c10Meth : Method := ⟨c10Req, fun _ => .success .mnil⟩

def c10Svc : Service := ⟨"/svc", "SvcDef", [("m", c10Meth)]⟩

def c10Env : Environ :=
  ⟨"/svc.m", "POST", some "application/json", none, none,
    .json (.jobj [("ignored", .jint 1)])⟩

theorem empty_body_empty_request_witness :
    hasRequiredFields c10Req = true ∧
    decode_message c10Req .empty = .ok (fresh c10Req) ∧
    check_initialized (fresh c10Req) = false ∧
    protorpc_service_app [protojsonProtocol] c10Svc c10Env =
      invokeMethod protojsonProtocol "application/json" c10Meth
        (fresh c10Req) ∧
    protorpc_service_app [protojsonProtocol] c10Svc c10Env =
      .ok ⟨200, "application/json", .wire (.json (.jobj []))⟩ := by
  obtain ⟨h1, h2, h3⟩ := empty_body_empty_request [protojsonProtocol]
    c10Svc c10Env "/svc" "m" "application/json" c10Meth
    (by decide) (by decide) (by decide) (by rfl) (by rfl) (by rfl)
  exact ⟨by decide, h1, h2 (by decide), h3, by rfl⟩

end ProtoRPC
